import Mathlib

/-!
Verification of the hackerman workspace feature-unifier.

This file shallowly embeds the parts of the program that the claims
concern:

* `src/toml.rs` — manifest editing: checksums (`get_checksum` /
  `add_checksum`), the stash-and-restore protocol
  (`set_dependencies_toml` / `restore_toml`), the warning banner
  (`add_banner` / `strip_banner`) and checksum verification
  (`verify_checksum`).
* `src/feat_graph.rs` — feature-graph construction (`add_package`,
  `add_edge`, `FeatTarget` parsing, weak-dependency `Trigger`s).
* `src/source.rs` — requested-feature optimisation (`optimize_feats`).

TOML documents are modelled after `toml_edit`'s document tree: items are
values, tables or arrays of tables; tables carry decor, an `implicit`
flag and an output position; every value carries its decor and rendered
representation.  The hasher behind the checksum is Rust's
`DefaultHasher`, i.e. SipHash-1-3 with zero keys, which is implemented
here bit-faithfully over `Nat` (the embedding reproduces the two
checksum constants asserted by the repository's own tests).
-/

namespace Hackerman

set_option maxRecDepth 16384

/-! ### SipHash-1-3 (Rust `std::collections::hash_map::DefaultHasher`)

`DefaultHasher::new()` is SipHash-1-3 keyed with `(0, 0)`.  Feeding a
`&str` through `Hash::hash` writes the UTF-8 bytes of the string
followed by a single `0xFF` byte.  The hasher state is therefore a
function of the concatenated byte stream, which we model as a
`List Nat` of bytes. -/

def M64 : Nat := 18446744073709551616

def rotl64 (x r : Nat) : Nat :=
  (x % 2 ^ (64 - r)) * 2 ^ r + x / 2 ^ (64 - r)

structure SipState where
  v0 : Nat
  v1 : Nat
  v2 : Nat
  v3 : Nat
deriving Repr, DecidableEq

def sipRound (s : SipState) : SipState :=
  let v0 := (s.v0 + s.v1) % M64
  let v1 := rotl64 s.v1 13
  let v1 := v1 ^^^ v0
  let v0 := rotl64 v0 32
  let v2 := (s.v2 + s.v3) % M64
  let v3 := rotl64 s.v3 16
  let v3 := v3 ^^^ v2
  let v0 := (v0 + v3) % M64
  let v3 := rotl64 v3 21
  let v3 := v3 ^^^ v0
  let v2 := (v2 + v1) % M64
  let v1 := rotl64 v1 17
  let v1 := v1 ^^^ v2
  let v2 := rotl64 v2 32
  ⟨v0, v1, v2, v3⟩

def sipCompress (s : SipState) (m : Nat) : SipState :=
  let s := { s with v3 := s.v3 ^^^ m }
  let s := sipRound s
  { s with v0 := s.v0 ^^^ m }

def sipInit : SipState :=
  ⟨0x736f6d6570736575, 0x646f72616e646f6d, 0x6c7967656e657261, 0x7465646279746573⟩

def word64 (b0 b1 b2 b3 b4 b5 b6 b7 : Nat) : Nat :=
  b0 + 256 * (b1 + 256 * (b2 + 256 * (b3 + 256 * (b4 + 256 * (b5 + 256 * (b6 + 256 * b7))))))

/-- Fold the 8-byte blocks of the message into the state; return the
state together with the trailing (< 8 byte) block. -/
def sipBlocks (s : SipState) : List Nat → SipState × List Nat
  | b0 :: b1 :: b2 :: b3 :: b4 :: b5 :: b6 :: b7 :: rest =>
      sipBlocks (sipCompress s (word64 b0 b1 b2 b3 b4 b5 b6 b7)) rest
  | rest => (s, rest)

def padTail (len : Nat) (tail : List Nat) : Nat :=
  word64
    (tail.getD 0 0) (tail.getD 1 0) (tail.getD 2 0) (tail.getD 3 0)
    (tail.getD 4 0) (tail.getD 5 0) (tail.getD 6 0) (len % 256)

/-- SipHash-1-3 with key `(0, 0)` over a byte stream. -/
def siphash13 (data : List Nat) : Nat :=
  let (s, tail) := sipBlocks sipInit data
  let s := sipCompress s (padTail data.length tail)
  let s := { s with v2 := s.v2 ^^^ 0xff }
  let s := sipRound (sipRound (sipRound s))
  s.v0 ^^^ s.v1 ^^^ s.v2 ^^^ s.v3

/-- UTF-8 encoding of one code point as bytes. -/
def utf8Char (n : Nat) : List Nat :=
  if n < 0x80 then [n]
  else if n < 0x800 then
    [0xC0 + n / 64, 0x80 + n % 64]
  else if n < 0x10000 then
    [0xE0 + n / 4096, 0x80 + n / 64 % 64, 0x80 + n % 64]
  else
    [0xF0 + n / 262144, 0x80 + n / 4096 % 64, 0x80 + n / 64 % 64, 0x80 + n % 64]

def utf8Str (s : String) : List Nat :=
  s.data.flatMap (fun c => utf8Char c.toNat)

/-- The `DefaultHasher` state is modelled as the list of bytes written
so far (most recent write at the tail).  `Hash::hash` for `&str`
writes the UTF-8 bytes followed by `0xFF`. -/
def hashStr (h : List Nat) (s : String) : List Nat :=
  h ++ utf8Str s ++ [0xFF]

def hasherFinish (h : List Nat) : Nat :=
  siphash13 h

/-- `str::starts_with` / prefix stripping, over code points (all the
patterns used are ASCII, where code-point and byte offsets agree). -/
def strIsPrefixOf (pat s : String) : Bool :=
  pat.data.isPrefixOf s.data

def strDropChars (s : String) (n : Nat) : String :=
  ⟨s.data.drop n⟩

/-- Byte-order comparison of strings (Rust `Ord` for `str`; on the
ASCII keys involved this agrees with code-point order). -/
def strLtB : List Char → List Char → Bool
  | [], [] => false
  | [], _ :: _ => true
  | _ :: _, [] => false
  | a :: as, b :: bs =>
      if a.toNat < b.toNat then true
      else if b.toNat < a.toNat then false
      else strLtB as bs

def strLt (a b : String) : Bool := strLtB a.data b.data

/-! ### The `toml_edit` document tree

A document is a table; tables map keys to items; an item is nothing
(`Item::None`), a value, a sub-table or an array of tables.  Keys and
values carry their surrounding trivia (decor); tables carry the decor
of their header line, the `implicit` flag (a table created implicitly
by a dotted header or by `get_table`, whose header is omitted when it
has no direct values) and an optional output `position`.  Rendering a
value includes its decor, which is what `Value::to_string()` produces
and what the checksum hashes; header keys are rendered unquoted. -/

structure TKey where
  pre : Option String
  text : String
  suf : Option String

inductive TValue where
  | vStr (pre : Option String) (s : String) (suf : Option String)
  | vInt (pre : Option String) (n : Int) (suf : Option String)
  | vFloat (pre : Option String) (r : String) (suf : Option String)
  | vBool (pre : Option String) (b : Bool) (suf : Option String)
  | vArray (pre : Option String) (elems : List TValue) (suf : Option String)
  | vInline (pre : Option String) (entries : List (TKey × TValue)) (suf : Option String)

mutual
inductive TItem where
  | nothing
  | value (v : TValue)
  | table (t : TTable)
  | arrayOfTables (ts : List TTable)
inductive TTable where
  | mk (pre : Option String) (suf : Option String) (implicit : Bool)
      (pos : Option Nat) (entries : List (TKey × TItem))
end

def TTable.pre : TTable → Option String
  | .mk p _ _ _ _ => p

def TTable.suf : TTable → Option String
  | .mk _ s _ _ _ => s

def TTable.implicit : TTable → Bool
  | .mk _ _ i _ _ => i

def TTable.pos : TTable → Option Nat
  | .mk _ _ _ p _ => p

def TTable.entries : TTable → List (TKey × TItem)
  | .mk _ _ _ _ es => es

def TTable.withEntries : TTable → List (TKey × TItem) → TTable
  | .mk p s i q _, es => .mk p s i q es

def TTable.withImplicit : TTable → Bool → TTable
  | .mk p s _ q es, b => .mk p s b q es

def TTable.withPos : TTable → Option Nat → TTable
  | .mk p s i _ es, q => .mk p s i q es

/-- `Table::new()` followed by `set_implicit(true)`, as produced by
`get_table` for missing path components. -/
def freshImplicitTable : TTable := .mk none none true none []

def defaultKey (name : String) : TKey := ⟨none, name, none⟩

/-! ### Association-list operations on table entries

`toml_edit` tables are insertion-ordered maps.  `insert` replaces the
item of an existing key in place (keeping the stored key and its
decor) and otherwise appends a fresh key at the end; `remove` deletes
the entry. -/

def lookupEntry (es : List (TKey × TItem)) (name : String) : Option TItem :=
  match es.find? (fun e => e.1.text == name) with
  | some e => some e.2
  | none => none

def insertEntry : List (TKey × TItem) → String → TItem → Option TItem × List (TKey × TItem)
  | [], name, it => (none, [(defaultKey name, it)])
  | (k, old) :: rest, name, it =>
      if k.text == name then (some old, (k, it) :: rest)
      else
        let (o, rest') := insertEntry rest name it
        (o, (k, old) :: rest')

def removeEntry : List (TKey × TItem) → String → Option TItem × List (TKey × TItem)
  | [], _ => (none, [])
  | (k, it) :: rest, name =>
      if k.text == name then (some it, rest)
      else
        let (o, rest') := removeEntry rest name
        (o, (k, it) :: rest')

/-- Stable insertion sort of table entries by key text
(`Table::sort_values`). -/
def insertSorted (e : TKey × TItem) : List (TKey × TItem) → List (TKey × TItem)
  | [] => [e]
  | f :: rest => if strLt f.1.text e.1.text then f :: insertSorted e rest else e :: f :: rest

def sortEntries : List (TKey × TItem) → List (TKey × TItem)
  | [] => []
  | e :: rest => insertSorted e (sortEntries rest)

def TTable.sortValues (t : TTable) : TTable :=
  t.withEntries (sortEntries t.entries)

/-! ### Rendering

Mirrors `toml_edit`'s `Display`: a key renders as
`pre ++ text ++ suf` with defaults `("", " ")`, a value as
`pre ++ repr ++ suf` with defaults `(" ", "")`; `Value::to_string()`
(hashed by the checksum) is exactly this decorated text. -/

def renderKeyStr (k : TKey) : String :=
  k.pre.getD "" ++ k.text ++ k.suf.getD " "

def renderValue : TValue → String
  | .vStr p s q => p.getD " " ++ "\"" ++ s ++ "\"" ++ q.getD ""
  | .vInt p n q => p.getD " " ++ toString n ++ q.getD ""
  | .vFloat p r q => p.getD " " ++ r ++ q.getD ""
  | .vBool p b q => p.getD " " ++ (if b then "true" else "false") ++ q.getD ""
  | .vArray p es q => p.getD " " ++ "[" ++ String.intercalate "," (renderElems es) ++ "]" ++ q.getD ""
  | .vInline p es q => p.getD " " ++ "\x7b" ++ String.intercalate "," (renderPairs es) ++ "\x7d" ++ q.getD ""
where
  renderElems : List TValue → List String
    | [] => []
    | v :: rest => renderValue v :: renderElems rest
  renderPairs : List (TKey × TValue) → List String
    | [] => []
    | (k, v) :: rest => (renderKeyStr k ++ "=" ++ renderValue v) :: renderPairs rest

/-! ### The checksum (`add_checksum` / `get_checksum`)

`add_checksum` walks an item feeding the hasher: a value contributes
its decorated rendering, a (sub-)table contributes each key's text
followed by the key's item, an array of tables likewise for each of
its tables, and `Item::None` contributes nothing.  `get_checksum`
walks the top-level keys in document order and feeds the items of the
`dependencies`, `dev-dependencies`, `build-dependencies` and `target`
keys, then reduces the hash to a non-negative TOML integer. -/

def checksumKeys : List String :=
  ["dependencies", "dev-dependencies", "build-dependencies", "target"]

mutual
def addChecksum : TItem → List Nat → List Nat
  | .nothing, h => h
  | .value v, h => hashStr h (renderValue v)
  | .table (.mk _ _ _ _ es), h => addChecksumEntries es h
  | .arrayOfTables ts, h => addChecksumTables ts h
def addChecksumEntries : List (TKey × TItem) → List Nat → List Nat
  | [], h => h
  | (k, it) :: rest, h => addChecksumEntries rest (addChecksum it (hashStr h k.text))
def addChecksumTables : List TTable → List Nat → List Nat
  | [], h => h
  | .mk _ _ _ _ es :: rest, h => addChecksumTables rest (addChecksumEntries es h)
end

def checksumFold : List (TKey × TItem) → List Nat → List Nat
  | [], h => h
  | (k, it) :: rest, h =>
      if k.text ∈ checksumKeys then checksumFold rest (addChecksum it h)
      else checksumFold rest h

def getChecksum (doc : TTable) : Int :=
  Int.ofNat (hasherFinish (checksumFold doc.entries []) % 8000000000000000000)

/-! ### `get_table`

`get_table` walks a dotted path from the document root, inserting a
fresh table for a missing component, failing if a component holds a
non-table item, and marking every traversed table implicit.  We model
it as `atPath f doc path seen`, which applies the mutation `f` to the
table found (or created) at `path`; `seen` accumulates the already
traversed components for the error message.  (In Rust the implicit
marks persist in the in-memory document even on a failing run; since
every caller abandons the document without writing the file when an
error occurs, discarding them on the error path is observationally
equivalent.) -/

def atPath {α : Type} (f : TTable → Except String (α × TTable)) :
    TTable → List String → List String → Except String (α × TTable)
  | t, [], _ => f t
  | t, comp :: rest, seen =>
      match lookupEntry t.entries comp with
      | some (.table sub) =>
          (match atPath f (sub.withImplicit true) rest (seen ++ [comp]) with
           | .ok (a, sub') => .ok (a, t.withEntries (insertEntry t.entries comp (.table sub')).2)
           | .error e => .error e)
      | some _ => .error ("Expected table at path " ++ String.intercalate "." seen)
      | none =>
          match atPath f freshImplicitTable rest (seen ++ [comp]) with
          | .ok (a, sub') => .ok (a, t.withEntries (t.entries ++ [(defaultKey comp, .table sub')]))
          | .error e => .error e

def hackermanPath : List String := ["package", "metadata", "hackerman"]
def lockPath : List String := hackermanPath ++ ["lock"]
def stashPath : List String := hackermanPath ++ ["stash"]
def normStashPath : List String := stashPath ++ ["dependencies"]
def devStashPath : List String := stashPath ++ ["dev-dependencies"]

def containsKey (t : TTable) (name : String) : Bool :=
  (lookupEntry t.entries name).isSome

/-! ### Banner -/

def BANNER : String :=
  "# !\n# ! This Cargo.toml file has unified features. In order to edit it\n# ! you should first restore it using `cargo hackerman restore` command\n# !\n\n"

def valuePre : TValue → Option String
  | .vStr p _ _ => p
  | .vInt p _ _ => p
  | .vFloat p _ _ => p
  | .vBool p _ _ => p
  | .vArray p _ _ => p
  | .vInline p _ _ => p

def valueWithPre : TValue → String → TValue
  | .vStr _ s q, p => .vStr (some p) s q
  | .vInt _ n q, p => .vInt (some p) n q
  | .vFloat _ r q, p => .vFloat (some p) r q
  | .vBool _ b q, p => .vBool (some p) b q
  | .vArray _ es q, p => .vArray (some p) es q
  | .vInline _ es q, p => .vInline (some p) es q

/-- Read side of `get_decor`: the decor prefix of the first top-level
item (for an array of tables, of its first table). -/
def firstItemPre (t : TTable) : Except String (Option String) :=
  match t.entries with
  | [] => .error "Empty toml document?"
  | (_, it) :: _ =>
    match it with
    | .nothing => .error "Empty toml document?"
    | .value v => .ok (valuePre v)
    | .table tb => .ok tb.pre
    | .arrayOfTables [] => .error "Empty toml document?"
    | .arrayOfTables (tb :: _) => .ok tb.pre

/-- Write side of `get_decor`: replace the decor prefix of the first
top-level item. -/
def setFirstItemPre (t : TTable) (p : String) : Except String TTable :=
  match t.entries with
  | [] => .error "Empty toml document?"
  | (k, it) :: rest =>
    match it with
    | .nothing => .error "Empty toml document?"
    | .value v => .ok (t.withEntries ((k, .value (valueWithPre v p)) :: rest))
    | .table tb => .ok (t.withEntries ((k, .table (.mk (some p) tb.suf tb.implicit tb.pos tb.entries)) :: rest))
    | .arrayOfTables [] => .error "Empty toml document?"
    | .arrayOfTables (tb :: ts) =>
        .ok (t.withEntries ((k, .arrayOfTables (.mk (some p) tb.suf tb.implicit tb.pos tb.entries :: ts)) :: rest))

def addBanner (t : TTable) : Except String TTable := do
  let p ← firstItemPre t
  match p with
  | some old => setFirstItemPre t (BANNER ++ old)
  | none => setFirstItemPre t BANNER

def stripBanner (t : TTable) : Except String (Bool × TTable) := do
  let p ← firstItemPre t
  match p with
  | some cur =>
      if strIsPrefixOf BANNER cur then do
        let t' ← setFirstItemPre t (strDropChars cur BANNER.data.length)
        pure (false, t')
      else pure (true, t)
  | none => pure (false, t)

/-! ### Change packages (`ChangePackage`, `compile_change_package`)

`Ty` is referenced by `src/toml.rs` but its definition is not among
the provided sources.  Modelled from the spec: changes are applied
under the table named by the change kind, `dependencies` or
`dev-dependencies`.  A `ChangePackage` carries the rendered version
(only its `to_string` is used) and the requested feature set as the
sorted deduplicated list a `BTreeSet` iterates as. -/

inductive Ty where
  | norm
  | dev

def Ty.tableName : Ty → String
  | .norm => "dependencies"
  | .dev => "dev-dependencies"

inductive PackageSource where
  | registry (r : String)
  | git (url : String)
  | file (path : String)

structure ChangePackage where
  name : String
  ty : Ty
  version : String
  source : PackageSource
  feats : List String
  rename : Bool

def insertVal : List (TKey × TValue) → String → TValue → List (TKey × TValue)
  | [], name, v => [(defaultKey name, v)]
  | (k, w) :: rest, name, v =>
      if k.text == name then (k, v) :: rest
      else (k, w) :: insertVal rest name v

def hashU64le (h : List Nat) (n : Nat) : List Nat :=
  h ++ [n % 256, n / 256 % 256, n / 65536 % 256, n / 16777216 % 256,
        n / 4294967296 % 256, n / 1099511627776 % 256,
        n / 281474976710656 % 256, n / 72057594037927936 % 256]

/-- `Hash` for `PackageSource` (derived in Rust): the variant tag as a
little-endian machine word, then the payload string.  (Rust hashes a
`Utf8PathBuf` per path component; for the ASCII single-component paths
considered here this coincides with hashing the string.)  Only the
rename key text produced from this value is observable. -/
def hashSource (src : PackageSource) : Nat :=
  hasherFinish (match src with
    | .registry r => hashStr (hashU64le [] 0) r
    | .git u => hashStr (hashU64le [] 1) u
    | .file p => hashStr (hashU64le [] 2) p)

def compileChangePackage (c : ChangePackage) : Except String (TItem × String) := do
  let t0 : List (TKey × TValue) ←
    match c.source with
    | .registry _ => pure [(defaultKey "version", .vStr none c.version none)]
    | .git _ => .error "not yet implemented"
    | .file p => pure [(defaultKey "path", .vStr none p none)]
  let feats := c.feats.filter (fun f => f ≠ "default")
  let t1 := if feats.isEmpty then t0
            else insertVal t0 "features" (.vArray none (feats.map (fun f => .vStr none f none)) none)
  let t2 := if c.feats.contains "default" then t1
            else insertVal t1 "default-features" (.vBool none false none)
  if c.rename then
    let t3 := insertVal t2 "package" (.vStr none c.name none)
    pure (.value (.vInline none t3 none), "hackerman-" ++ c.name ++ "-" ++ toString (hashSource c.source))
  else
    pure (.value (.vInline none t2 none), c.name)

/-! ### `set_dependencies_toml` and `set_dependencies` -/

def falseSentinel : TItem := .value (.vBool none false none)

def insertAll (es : List (TKey × TItem)) : List (String × TItem) → List (TKey × TItem)
  | [] => es
  | (name, it) :: rest => insertAll (insertEntry es name it).2 rest

def applyChanges : TTable → List ChangePackage →
    Except String (TTable × List (String × TItem) × List (String × TItem))
  | doc, [] => .ok (doc, [], [])
  | doc, c :: rest => do
      let (item, name) ← compileChangePackage c
      let (entry, doc) ← atPath (fun tb =>
          let (old, es) := insertEntry tb.entries name item
          .ok ((name, old.getD falseSentinel), tb.withEntries es)) doc [c.ty.tableName] []
      let (doc, sn, sd) ← applyChanges doc rest
      match c.ty with
      | .norm => pure (doc, entry :: sn, sd)
      | .dev => pure (doc, sn, entry :: sd)

def setDependenciesToml (doc : TTable) (lock : Bool) (changes : List ChangePackage) :
    Except String (Bool × TTable) := do
  if containsKey doc "target" then
    .error "target filtered dependencies present in the workspace are not supported by split mode hack"
  else
  let (doc, savedNorm, savedDev) ← applyChanges doc changes
  let (wasModified, doc) ←
    if lock then do
      let hash := getChecksum doc
      let (_, doc) ← atPath (fun tb =>
          let es := (insertEntry tb.entries "dependencies" (.value (.vInt none hash none))).2
          .ok ((), (tb.withEntries (sortEntries es)).withPos (some 997))) doc lockPath []
      pure (true, doc)
    else pure (false, doc)
  let (_, doc) ← atPath (fun tb =>
      .ok ((), (tb.withPos (some 998)).withEntries (insertAll tb.entries savedNorm))) doc normStashPath []
  let (_, doc) ← atPath (fun tb =>
      .ok ((), (tb.withPos (some 999)).withEntries (insertAll tb.entries savedDev))) doc devStashPath []
  let doc ← if wasModified then addBanner doc else pure doc
  pure (wasModified, doc)

/-- `set_dependencies` reads the manifest, edits it and writes the new
text back; on any error the write is skipped and the manifest file is
left as it was.  The file is modelled by its parsed document. -/
def setDependenciesRun (doc : TTable) (lock : Bool) (changes : List ChangePackage) :
    Except String Unit × TTable :=
  match setDependenciesToml doc lock changes with
  | .ok (_, d) => (.ok (), d)
  | .error e => (.error e, doc)

/-! ### `restore_toml` -/

def isInlineTableItem : TItem → Bool
  | .value (.vInline _ _ _) => true
  | _ => false

def isStrItem : TItem → Bool
  | .value (.vStr _ _ _) => true
  | _ => false

def isBoolItem : TItem → Bool
  | .value (.vBool _ _ _) => true
  | _ => false

def restoreEntries (live : List (TKey × TItem)) :
    List (TKey × TItem) → Except String (List (TKey × TItem))
  | [] => .ok live
  | (k, it) :: rest =>
      if isInlineTableItem it || isStrItem it then
        restoreEntries (insertEntry live k.text it).2 rest
      else if isBoolItem it then
        restoreEntries (removeEntry live k.text).2 rest
      else .error ("Corrupted key " ++ k.text)

def restoreTy (doc : TTable) (ty : String) (changed : Bool) :
    Except String (Bool × TTable) := do
  let (stash, doc) ← atPath (fun tb =>
      let (old, es) := removeEntry tb.entries ty
      .ok (old, tb.withEntries es)) doc stashPath []
  match stash with
  | none => pure (changed, doc)
  | some (.table st) => do
      let (_, doc) ← atPath (fun tb => do
          let es ← restoreEntries tb.entries st.entries
          .ok ((), tb.withEntries (sortEntries es))) doc [ty] []
      pure (changed || !st.entries.isEmpty, doc)
  | some _ => .error "corrupted stash table"

def restoreToml (doc : TTable) : Except String (Bool × TTable) := do
  let (removedLock, doc) ← atPath (fun tb =>
      let (old, es) := removeEntry tb.entries "lock"
      .ok (old, tb.withEntries es)) doc hackermanPath []
  let changed := removedLock.isSome
  let (changed, doc) ← restoreTy doc "dependencies" changed
  let (changed, doc) ← restoreTy doc "dev-dependencies" changed
  let (sb, doc) ← stripBanner doc
  pure (changed || sb, doc)

/-! ### `verify_checksum` -/

def asInteger : TItem → Option Int
  | .value (.vInt _ n _) => some n
  | _ => none

def verifyChecksum (doc : TTable) : Except String Unit := do
  let checksum := getChecksum doc
  let (lockTable, _) ← atPath (fun tb => .ok (tb, tb)) doc lockPath []
  if lockTable.entries.isEmpty then pure ()
  else if (((lookupEntry lockTable.entries "dependencies").bind asInteger).map
             (fun l => l == checksum)).getD false then
    .error "Checksum mismatch"
  else pure ()

/-- `verify_checksum` only reads the manifest file; it never writes. -/
def verifyChecksumRun (doc : TTable) : Except String Unit × TTable :=
  (verifyChecksum doc, doc)

/-! ### Document rendering

`Document::to_string` walks the table tree depth-first in entry order,
collecting one render unit per table.  Each unit inherits the most
recently seen explicit `position`; the units are then sorted stably by
position and concatenated.  A table's unit is its header line —
omitted for the root, and for an implicit table with no direct values
— followed by its direct key-value lines.  An array-of-tables element
always renders its `[[...]]` header. -/

def hasDirectValue : List (TKey × TItem) → Bool
  | [] => false
  | (_, .value _) :: _ => true
  | _ :: rest => hasDirectValue rest

def renderBody : List (TKey × TItem) → String
  | [] => ""
  | (k, .value v) :: rest => renderKeyStr k ++ "=" ++ renderValue v ++ "\n" ++ renderBody rest
  | _ :: rest => renderBody rest

def renderHeader (path : List String) (pre suf : Option String) (isArr : Bool)
    (implicit : Bool) (es : List (TKey × TItem)) : String :=
  if path.isEmpty then ""
  else if isArr then
    pre.getD "" ++ "[[" ++ String.intercalate "." path ++ "]]" ++ suf.getD "" ++ "\n"
  else if implicit && !hasDirectValue es then ""
  else
    pre.getD "" ++ "[" ++ String.intercalate "." path ++ "]" ++ suf.getD "" ++ "\n"

mutual
def visitTable (path : List String) (isArr : Bool) (lastPos : Nat) :
    TTable → List (Nat × String) × Nat
  | .mk pre suf implicit pos es =>
      let p := pos.getD lastPos
      let unit := (p, renderHeader path pre suf isArr implicit es ++ renderBody es)
      let (units, p') := visitChildren path p es
      (unit :: units, p')
def visitChildren (path : List String) (lastPos : Nat) :
    List (TKey × TItem) → List (Nat × String) × Nat
  | [] => ([], lastPos)
  | (k, .table t) :: rest =>
      let (us, p') := visitTable (path ++ [k.text]) false lastPos t
      let (vs, p'') := visitChildren path p' rest
      (us ++ vs, p'')
  | (k, .arrayOfTables ts) :: rest =>
      let (us, p') := visitTableList (path ++ [k.text]) lastPos ts
      let (vs, p'') := visitChildren path p' rest
      (us ++ vs, p'')
  | _ :: rest => visitChildren path lastPos rest
def visitTableList (path : List String) (lastPos : Nat) :
    List TTable → List (Nat × String) × Nat
  | [] => ([], lastPos)
  | t :: rest =>
      let (us, p') := visitTable path true lastPos t
      let (vs, p'') := visitTableList path p' rest
      (us ++ vs, p'')
end

def insertUnit (e : Nat × String) : List (Nat × String) → List (Nat × String)
  | [] => [e]
  | f :: rest => if f.1 < e.1 then f :: insertUnit e rest else e :: f :: rest

def sortUnits : List (Nat × String) → List (Nat × String)
  | [] => []
  | e :: rest => insertUnit e (sortUnits rest)

def render (doc : TTable) : String :=
  let (units, _) := visitTable [] false 0 doc
  String.join ((sortUnits units).map (fun u => u.2))

/-! ### Checksum dependence analysis

`hproj` erases from an item everything the checksum walk cannot see:
key decor, table decor, implicit flags and positions disappear; what
remains is the tree of key texts and decorated value renderings.  An
array of tables projects to the concatenation of its tables' entries,
exactly as `add_checksum` walks it.  `shapeStream` is the byte stream
such a projected item feeds to the hasher. -/

inductive HShape where
  | hnone
  | hval (s : String)
  | htable (es : List (String × HShape))

mutual
def hproj : TItem → HShape
  | .nothing => .hnone
  | .value v => .hval (renderValue v)
  | .table (.mk _ _ _ _ es) => .htable (hprojEntries es)
  | .arrayOfTables ts => .htable (hprojTables ts)
def hprojEntries : List (TKey × TItem) → List (String × HShape)
  | [] => []
  | (k, it) :: rest => (k.text, hproj it) :: hprojEntries rest
def hprojTables : List TTable → List (String × HShape)
  | [] => []
  | .mk _ _ _ _ es :: rest => hprojEntries es ++ hprojTables rest
end

mutual
def shapeStream : HShape → List Nat
  | .hnone => []
  | .hval s => utf8Str s ++ [0xFF]
  | .htable es => shapeStreamEntries es
def shapeStreamEntries : List (String × HShape) → List Nat
  | [] => []
  | (k, sh) :: rest => utf8Str k ++ [0xFF] ++ (shapeStream sh ++ shapeStreamEntries rest)
end

/-- The projections of the checksum-relevant top-level items, in
document order (the checksum hashes only these; the names of the
relevant top-level keys themselves are not hashed). -/
def relevantShapes : List (TKey × TItem) → List HShape
  | [] => []
  | (k, it) :: rest =>
      if k.text ∈ checksumKeys then hproj it :: relevantShapes rest
      else relevantShapes rest

def streamsConcat : List HShape → List Nat
  | [] => []
  | s :: rest => shapeStream s ++ streamsConcat rest

/-- Plain read of the table at a dotted path (no insertion): `none`
when a component is missing or is not a table. -/
def lookupTablePath : TTable → List String → Option TTable
  | t, [] => some t
  | t, c :: rest =>
      match lookupEntry t.entries c with
      | some (.table sub) => lookupTablePath sub rest
      | _ => none

def renderAfterBanner (doc : TTable) : Option String :=
  match addBanner doc with
  | .ok t => some (render t)
  | .error _ => none

/-! ### Concrete documents used as inputs -/

/-- A locked manifest: `[dependencies] foo = "1.0"` together with
`package.metadata.hackerman.lock.dependencies = n`. -/
def lockedDoc (n : Int) : TTable :=
  .mk none none false none
    [(⟨some "", "dependencies", none⟩, .table (.mk (some "") (some "") false (some 1)
      [(⟨some "", "foo", some " "⟩, .value (.vStr (some " ") "1.0" (some "")))])),
     (⟨none, "package", none⟩, .table (.mk none none true none
       [(⟨none, "metadata", none⟩, .table (.mk none none true none
         [(⟨none, "hackerman", none⟩, .table (.mk none none true none
           [(⟨none, "lock", none⟩, .table (.mk (some "") (some "") false (some 2)
             [(⟨some "", "dependencies", some " "⟩, .value (.vInt (some " ") n (some "")))]))]))]))]))]

/-- The checksum a correctly locked copy of `lockedDoc` records (the
checksum ignores the `package` subtree, so it does not depend on the
recorded value). -/
def lockedChecksum : Int := getChecksum (lockedDoc 0)

/-- A document whose top-level `package` key holds a plain value, so
no `package.metadata.hackerman.lock` table exists. -/
def badPkgDoc : TTable :=
  .mk none none false none
    [(⟨some "", "package", some " "⟩, .value (.vInt (some " ") 1 (some "")))]

/-- A plain unlocked manifest. -/
def plainDoc : TTable :=
  .mk none none false none
    [(⟨some "", "dependencies", none⟩, .table (.mk (some "") (some "") false (some 1)
      [(⟨some "", "foo", some " "⟩, .value (.vStr (some " ") "1.0" (some "")))]))]

/-- `[dependencies]` with a comment attached to the key `foo`; the
comment text is the parameter. -/
def commentDoc (c : String) : TTable :=
  .mk none none false none
    [(⟨some "", "dependencies", none⟩, .table (.mk (some "") (some "") false (some 1)
      [(⟨some c, "foo", some " "⟩, .value (.vStr (some " ") "1.0" (some "")))]))]

/-- A manifest already carrying the banner before its first table. -/
def bannerDoc : TTable :=
  .mk none none false none
    [(⟨some "", "dependencies", none⟩, .table (.mk (some BANNER) (some "") false (some 1)
      [(⟨some "", "foo", some " "⟩, .value (.vStr (some " ") "1.0" (some "")))]))]

/-- A manifest with a top-level `[target...]` section. -/
def targetDoc : TTable :=
  .mk none none false none
    [(⟨some "", "target", none⟩, .table (.mk none none true none
      [(⟨none, "cfg(unix)", none⟩, .table (.mk none none true none
        [(⟨none, "dependencies", none⟩, .table (.mk (some "") (some "") false (some 1)
          [(⟨some "", "foo", some " "⟩, .value (.vStr (some " ") "1.0" (some "")))]))]))]))]

/-- The document of the repository test `target_specific_feats`:
the parse of `[target.'cfg(target_os = "android")'.dependencies]`
followed by `package = 1.0`. -/
def demoDoc1 : TTable :=
  .mk none none false none
    [(⟨some "\n", "target", none⟩, .table (.mk none none true none
      [(⟨none, "cfg(target_os = \"android\")", none⟩, .table (.mk none none true none
        [(⟨none, "dependencies", none⟩, .table (.mk none none false (some 1)
          [(⟨some "", "package", some " "⟩, .value (.vFloat (some " ") "1.0" (some "")))]))]))]))]

/-- The document of the repository test `odd_declarations_are_supported`. -/
def demoDoc2 : TTable :=
  .mk none none false none
    [(⟨some "\n", "dependencies", none⟩, .table (.mk (some "") (some "") false (some 1)
      [(⟨some "", "by_version_1", some " "⟩, .value (.vStr (some " ") "1.0" (some ""))),
       (⟨some "", "by_version_2", some " "⟩, .value (.vInline (some " ")
          [(⟨some " ", "version", some " "⟩, .vStr (some " ") "1.0" (some "")),
           (⟨some " ", "features", some " "⟩, .vArray (some " ")
              [.vStr (some "") "one" (some ""), .vStr (some " ") "two" (some "")] (some " "))]
          (some ""))),
       (⟨some "", "from_git", some " "⟩, .value (.vInline (some " ")
          [(⟨some " ", "git", some " "⟩, .vStr (some " ") "https://github.com/rust-lang/regex" (some " "))]
          (some "")))]))]

/-! ### `FeatTarget` parsing (`src/feat_graph.rs`)

A feature-dependency string parses as `dep:krate`, `krate?/feat`,
`krate/feat` (first occurrence, in that precedence order) or a plain
named feature. -/

inductive FeatTarget where
  | named (name : String)
  | dependency (krate : String)
  | remote (krate : String) (feat : String)
  | cond (krate : String) (feat : String)
deriving DecidableEq

/-- `str::split_once`: split at the first occurrence of the pattern. -/
def splitOnceChars (pat : List Char) : List Char → Option (List Char × List Char)
  | [] => none
  | c :: rest =>
      if pat.isPrefixOf (c :: rest) then some ([], (c :: rest).drop pat.length)
      else
        match splitOnceChars pat rest with
        | some (a, b) => some (c :: a, b)
        | none => none

def splitOnceStr (s pat : String) : Option (String × String) :=
  match splitOnceChars pat.data s.data with
  | some (a, b) => some (⟨a⟩, ⟨b⟩)
  | none => none

def featTargetFrom (s : String) : FeatTarget :=
  if strIsPrefixOf "dep:" s then .dependency (strDropChars s 4)
  else
    match splitOnceStr s "?/" with
    | some (k, f) => .cond k f
    | none =>
      match splitOnceStr s "/" with
      | some (k, f) => .remote k f
      | none => .named s

/-! ### `optimize_feats` (`src/source.rs`)

`requested` is a `BTreeSet<String>`, modelled as a sorted,
duplicate-free list; `declared` is the package's feature map.  The
code collects into `implicit` the names of the `Named` feature
targets declared by each requested feature, then removes the
collected names from the requested set. -/

def btInsert (x : String) : List String → List String
  | [] => [x]
  | y :: rest =>
      if strLt x y then x :: y :: rest
      else if x == y then y :: rest
      else y :: btInsert x rest

def btRemove (x : String) : List String → List String
  | [] => []
  | y :: rest => if x == y then rest else y :: btRemove x rest

def lookupAssoc (m : List (String × List String)) (k : String) : Option (List String) :=
  (m.find? (fun e => e.1 == k)).map (fun e => e.2)

/-- The names of the `Named` feature targets among a feature's
declared dependencies. -/
def namedTargets (deps : List String) : List String :=
  deps.filterMap (fun d =>
    match featTargetFrom d with
    | .named n => some n
    | _ => none)

def insertAllNames (ns : List String) (acc : List String) : List String :=
  ns.foldl (fun a n => btInsert n a) acc

def collectImplicit (declared : List (String × List String)) :
    List String → List String → List String
  | [], acc => acc
  | req :: rest, acc =>
      collectImplicit declared rest
        (insertAllNames (namedTargets ((lookupAssoc declared req).getD [])) acc)

def optimizeFeats (declared : List (String × List String)) (requested : List String) :
    List String :=
  let implicit := collectImplicit declared requested []
  implicit.foldl (fun req imp => btRemove imp req) requested

/-- Modelled from the spec: `implied_named_feats(y)` is the set of
features transitively implied by `y` through chains of `Named`
feature targets in the declared feature map (the spec's feature
optimisation rule; the source's `optimize_feats` is compared against
this).  A chain passes through at most `declared.length` distinct
keys, so iterating that many times reaches the closure. -/
def impliedIter (declared : List (String × List String)) :
    Nat → List String → List String
  | 0, xs => xs
  | n + 1, xs =>
      impliedIter declared n
        (xs ++ xs.flatMap (fun y => namedTargets ((lookupAssoc declared y).getD [])))

def impliedNamedFeats (declared : List (String × List String)) (y : String) : List String :=
  impliedIter declared declared.length (namedTargets ((lookupAssoc declared y).getD []))

/-- Modelled from the spec: `requested \ set-of-transitively-implied`,
the rule C9 states. -/
def specOptimizeFeats (declared : List (String × List String)) (requested : List String) :
    List String :=
  requested.filter (fun x =>
    ! requested.any (fun y => (impliedNamedFeats declared y).contains x))


/-- A stash entry the restore loop can process is an inline table, a
string, or a boolean; anything else aborts with the corrupted-key
error. -/
def stashEntryCorrupted (it : TItem) : Bool :=
  !(isInlineTableItem it || isStrItem it || isBoolItem it)

/-- The entries of the top-level `[dependencies]` table. -/
def depTableEntries (d : TTable) : List (TKey × TItem) :=
  match lookupTablePath d ["dependencies"] with
  | some t => t.entries
  | none => []

/-- A manifest whose stash holds the boolean `true` (not the `false`
sentinel) for the key `foo` of `[dependencies]`. -/
def trueStashDoc : TTable :=
  .mk none none false none
    [(⟨some "", "dependencies", none⟩, .table (.mk (some "") (some "") false (some 1)
      [(⟨some "", "foo", some " "⟩, .value (.vStr (some " ") "1.0" (some "")))])),
     (⟨none, "package", none⟩, .table (.mk none none true none
       [(⟨none, "metadata", none⟩, .table (.mk none none true none
         [(⟨none, "hackerman", none⟩, .table (.mk none none true none
           [(⟨none, "stash", none⟩, .table (.mk none none true none
             [(⟨none, "dependencies", none⟩, .table (.mk none none true (some 998)
               [(⟨some "", "foo", some " "⟩, .value (.vBool (some " ") true (some "")))]))]))]))]))]))]

/-- Concrete live table and stash used to witness the restore-entry
semantics: `z` was stashed as the `false` sentinel, `a` as its
original string value. -/
def c3Live : List (TKey × TItem) :=
  [(⟨some "", "a", some " "⟩, .value (.vInline (some " ") [] (some ""))),
   (⟨some "", "b", some " "⟩, .value (.vStr (some " ") "1" (some "")))]

def c3Stash : List (TKey × TItem) :=
  [(⟨none, "z", none⟩, falseSentinel),
   (⟨none, "a", none⟩, .value (.vStr none "0.9" none))]

def c3Result : List (TKey × TItem) :=
  match restoreEntries c3Live c3Stash with
  | .ok r => r
  | .error _ => []


/-! ### Feature graph model (`src/feat_graph.rs`)

The cargo metadata inputs: packages with name, version, source repr,
feature map and dependencies.  Version-requirement matching
(`dep.req.matches`, the external `semver` crate) is modelled as a
predicate carried by the dependency.  Node indices are positions in
the node list; `fids` is the `Fid → NodeIndex` lookup map. -/

inductive DependencyKind where
  | normal
  | development
  | build
  | unknown
deriving DecidableEq

structure DepKindInfo where
  kind : DependencyKind
  target : Option String
deriving DecidableEq

def DepKindInfo.NORMAL : DepKindInfo := ⟨.normal, none⟩

structure MDep where
  name : String
  source : Option String
  req : String → Bool
  kind : DependencyKind
  optional : Bool
  usesDefaultFeatures : Bool
  features : List String
  target : Option String
  rename : Option String

structure MPackage where
  id : String
  name : String
  version : String
  source : Option String
  features : List (String × List String)
  dependencies : List MDep

inductive Feat where
  | base
  | named (name : String)
deriving DecidableEq

structure Fid where
  pid : Nat
  dep : Feat
deriving DecidableEq

inductive Feature where
  | root
  | workspace (fid : Fid)
  | external (fid : Fid)
deriving DecidableEq

structure Link where
  optional : Bool
  kinds : List DepKindInfo
deriving DecidableEq

structure Trigger where
  package : Nat
  feature : Fid
  weakDep : Nat
  weakFeat : Fid
deriving DecidableEq

structure FG where
  nodes : List Feature
  edges : List (Nat × Nat × Link)
  fids : List (Fid × Nat)
  workspaceMembers : List Nat
  triggers : List (Nat × List Trigger)

def lookupFid (st : FG) (fid : Fid) : Option Nat :=
  (st.fids.find? (fun e => e.1 == fid)).map (fun e => e.2)

/-- `fid_index`: look the FID up, creating a Workspace or External
node for it when absent. -/
def fidIndex (st : FG) (fid : Fid) : Nat × FG :=
  match lookupFid st fid with
  | some ix => (ix, st)
  | none =>
      let feature := if st.workspaceMembers.contains fid.pid then
          Feature.workspace fid
        else Feature.external fid
      let ix := st.nodes.length
      (ix, { st with nodes := st.nodes ++ [feature], fids := st.fids ++ [(fid, ix)] })

/-- `Pid::root()` / `HasIndex for Pid`: `Named("default")` when the
package declares a `default` feature, else `Base`. -/
def pidRootFid (pkg : MPackage) (pid : Nat) : Fid :=
  if (pkg.features.map (fun f => f.1)).contains "default" then ⟨pid, .named "default"⟩
  else ⟨pid, .base⟩

/-- The `PackageId → Pid` cache: position of the package with this id
(ids are unique in a metadata snapshot). -/
def pidOf (packages : List MPackage) (id : String) : Option Nat :=
  packages.findIdx? (fun p => p.id == id)

/-- `add_edge` on already-resolved node indices: merge into an
existing `a → b` link (push the kind if new, AND the optional flags)
or append a fresh edge. -/
def mergeLink (l : Link) (optional : Bool) (kind : DepKindInfo) : Link :=
  { optional := l.optional && optional,
    kinds := if l.kinds.contains kind then l.kinds else l.kinds ++ [kind] }

def updateEdgeList (a b : Nat) (optional : Bool) (kind : DepKindInfo) :
    List (Nat × Nat × Link) → Option (List (Nat × Nat × Link))
  | [] => none
  | (x, y, l) :: rest =>
      if x == a && y == b then some ((x, y, mergeLink l optional kind) :: rest)
      else
        match updateEdgeList a b optional kind rest with
        | some rest' => some ((x, y, l) :: rest')
        | none => none

def addEdgeIx (st : FG) (a b : Nat) (optional : Bool) (kind : DepKindInfo) : FG :=
  match updateEdgeList a b optional kind st.edges with
  | some edges' => { st with edges := edges' }
  | none => { st with edges := st.edges ++ [(a, b, ⟨optional, [kind]⟩)] }

/-- The line `packages.iter().find(|p| p.name == dep.name &&
dep.req.matches(&p.version))`: the first package matching the name and
the version requirement; the dependency's `source` is not consulted. -/
def findResolvedIdx (packages : List MPackage) (dep : MDep) : Option Nat :=
  packages.findIdx? (fun p => p.name == dep.name && dep.req p.version)

def depKindInfoOf (dep : MDep) : DepKindInfo := ⟨dep.kind, dep.target⟩

/-- One iteration of the `for feat in &dep.features` loop:
`add_edge(this, (resolved, feat), false, dep.into())`. -/
def addFeatEdge (packages : List MPackage) (resolved : MPackage) (srcIx : Nat) (dep : MDep)
    (st : FG) (feat : String) : FG :=
  match pidOf packages resolved.id with
  | some rpid =>
      let (fix, st) := fidIndex st ⟨rpid, .named feat⟩
      addEdgeIx st srcIx fix false (depKindInfoOf dep)
  | none => st

/-- The dependency-loop body of `add_package` for one `dep`; the
second state component is the `deps` name cache
`rename.unwrap_or(resolved.name) → (resolved index, dep, remote node)`. -/
def processDep (packages : List MPackage) (wsMember : Bool) (this : Nat) (baseIx : Nat)
    (st : FG) (deps : List (String × Nat × MDep × Nat)) (dep : MDep) :
    FG × List (String × Nat × MDep × Nat) :=
  if !wsMember && dep.kind == .development then (st, deps)
  else
    match findResolvedIdx packages dep with
    | none => (st, deps)
    | some ridx =>
        match packages.get? ridx with
        | none => (st, deps)
        | some resolved =>
            let (srcIx, st) :=
              if dep.optional then fidIndex st ⟨this, .named dep.name⟩
              else (baseIx, st)
            let (remote, st) :=
              if dep.usesDefaultFeatures then
                match pidOf packages resolved.id with
                | some rpid =>
                    let (bix, st) := fidIndex st (pidRootFid resolved rpid)
                    (some bix, addEdgeIx st srcIx bix false (depKindInfoOf dep))
                | none => (none, st)
              else
                match pidOf packages resolved.id with
                | some rpid =>
                    let (bix, st) := fidIndex st ⟨rpid, .base⟩
                    (some bix, addEdgeIx st srcIx bix false (depKindInfoOf dep))
                | none => (none, st)
            let st := dep.features.foldl (addFeatEdge packages resolved srcIx dep) st
            match remote with
            | some r =>
                (st, (deps.find? (fun e => e.1 == dep.rename.getD resolved.name)).elim
                  (deps ++ [(dep.rename.getD resolved.name, ridx, dep, r)])
                  (fun _ => deps.map (fun e =>
                    if e.1 == dep.rename.getD resolved.name then
                      (e.1, ridx, dep, r)
                    else e)))
            | none => (st, deps)

def lookupDeps (deps : List (String × Nat × MDep × Nat)) (krate : String) :
    Option (Nat × MDep × Nat) :=
  (deps.find? (fun e => e.1 == krate)).map (fun e => e.2)

def pushTrigger (trs : List (Nat × List Trigger)) (pid : Nat) (t : Trigger) :
    List (Nat × List Trigger) :=
  match trs.find? (fun e => e.1 == pid) with
  | some _ => trs.map (fun e => if e.1 == pid then (e.1, e.2 ++ [t]) else e)
  | none => trs ++ [(pid, [t])]

/-- The feature-map loop body of `add_package` for one feature-dep
string of the feature `featName` (graph node `featIx`). -/
def processFeatDep (packages : List MPackage) (this : Nat) (featIx : Nat) (featName : String)
    (deps : List (String × Nat × MDep × Nat)) (st : FG) (featDep : String) : FG :=
  match featTargetFrom featDep with
  | .named n =>
      let (nix, st) := fidIndex st ⟨this, .named n⟩
      addEdgeIx st featIx nix false .NORMAL
  | .dependency krate =>
      match lookupDeps deps krate with
      | some (_, link, remote) => addEdgeIx st featIx remote true (depKindInfoOf link)
      | none => st
  | .remote krate feat =>
      match lookupDeps deps krate with
      | some (ridx, link, _) =>
          match packages.get? ridx with
          | some resolved =>
              match pidOf packages resolved.id with
              | some rpid =>
                  let (fix, st) := fidIndex st ⟨rpid, .named feat⟩
                  addEdgeIx st featIx fix true (depKindInfoOf link)
              | none => st
          | none => st
      | none => st
  | .cond krate feat =>
      match lookupDeps deps krate with
      | some (ridx, _, _) =>
          match packages.get? ridx with
          | some resolved =>
              match pidOf packages resolved.id with
              | some rpid =>
                  { st with triggers := (pushTrigger st.triggers this
                      ⟨this, ⟨this, .named featName⟩, rpid, ⟨rpid, .named feat⟩⟩) }
              | none => st
          | none => st
      | none => st

def processFeature (packages : List MPackage) (this : Nat) (baseIx : Nat)
    (deps : List (String × Nat × MDep × Nat)) (st : FG)
    (feat : String × List String) : FG :=
  let (featIx, st) := fidIndex st ⟨this, .named feat.1⟩
  let st := addEdgeIx st featIx baseIx false .NORMAL
  feat.2.foldl (processFeatDep packages this featIx feat.1 deps) st

/-- `add_package` for the package at index `ix`. -/
def addPackage (st : FG) (ix : Nat) (packages : List MPackage) : FG :=
  match packages.get? ix with
  | none => st
  | some package =>
      let this := ix
      let (baseIx, st) := fidIndex st ⟨this, .base⟩
      let wsMember := st.workspaceMembers.contains this
      let st :=
        if wsMember then
          let (rootTgt, st) := fidIndex st (pidRootFid package this)
          addEdgeIx st 0 rootTgt false .NORMAL
        else st
      let (st, deps) := package.dependencies.foldl
        (fun acc dep => processDep packages wsMember this baseIx acc.1 acc.2 dep)
        (st, [])
      package.features.foldl (processFeature packages this baseIx deps) st

/-- The claim's source-matching rule: both absent match; both present
match when the repr strings are equal or both start with `git` and one
is a prefix of the other. -/
def specSourceMatches (a b : Option String) : Bool :=
  match a, b with
  | none, none => true
  | some x, some y =>
      x == y ||
        (strIsPrefixOf "git" x && strIsPrefixOf "git" y &&
          (strIsPrefixOf x y || strIsPrefixOf y x))
  | _, _ => false

/-- Modelled from the spec: the claim's resolution rule, matching
`(name, version requirement, source)`. -/
def specFindResolved (packages : List MPackage) (dep : MDep) : Option Nat :=
  packages.findIdx? (fun p =>
    p.name == dep.name && dep.req p.version && specSourceMatches dep.source p.source)

def hasEdgeBetween (st : FG) (a b : Fid) : Bool :=
  match lookupFid st a, lookupFid st b with
  | some i, some j => st.edges.any (fun e => e.1 == i && e.2.1 == j)
  | _, _ => false

/-- The concrete metadata of the C6 counterexample: two packages both
named `foo 1.0.0` — one from the registry, one from git — and a
workspace member `m` whose optional dependency on `foo` names the git
source and is renamed to `bar`. -/
def fooDep : MDep :=
  { name := "foo", source := some "git+https://a", req := fun _ => true,
    kind := .normal, optional := true, usesDefaultFeatures := false,
    features := [], target := none, rename := some "bar" }

def cxPackages : List MPackage :=
  [{ id := "reg-foo", name := "foo", version := "1.0.0",
     source := some "registry+https://crates", features := [], dependencies := [] },
   { id := "git-foo", name := "foo", version := "1.0.0",
     source := some "git+https://a", features := [], dependencies := [] },
   { id := "m", name := "m", version := "0.1.0", source := none,
     features := [], dependencies := [fooDep] }]

def cxInit : FG :=
  { nodes := [.root], edges := [], fids := [], workspaceMembers := [2], triggers := [] }

def cxResult : FG := addPackage cxInit 2 cxPackages


/-- The `rgb` package and `deps` cache entry used to witness the weak
dependency trigger. -/
def rgbPkg : MPackage :=
  { id := "rgb", name := "rgb", version := "1.0.0", source := none,
    features := [], dependencies := [] }

def cx7Deps : List (String × Nat × MDep × Nat) := [("rgb", 0, fooDep, 9)]


/-! ### Round-trip machinery (C2)

`foldInserts` is the net effect of the change loop on one dependency
table; `savedOf` is the stash the loop records for it (the displaced
item, or the `false` sentinel for keys that did not exist).
`rtTransform` is the document the round trip provably returns: the
original with both dependency tables sorted and marked implicit, the
`package.metadata.hackerman` chain marked implicit, and an emptied
stash table left behind — bookkeeping that renders as nothing. -/

def foldInserts (es : List (TKey × TItem)) (L : List (String × TItem)) :
    List (TKey × TItem) :=
  L.foldl (fun es e => (insertEntry es e.1 e.2).2) es

def savedOf (es : List (TKey × TItem)) (L : List (String × TItem)) :
    List (TKey × TItem) :=
  L.map (fun e => (defaultKey e.1, (lookupEntry es e.1).getD falseSentinel))

def compiledNameOf (c : ChangePackage) : String :=
  match compileChangePackage c with
  | .ok (_, n) => n
  | .error _ => ""

def compiledItemOf (c : ChangePackage) : TItem :=
  match compileChangePackage c with
  | .ok (it, _) => it
  | .error _ => .nothing

def isNorm : Ty → Bool
  | .norm => true
  | .dev => false

def changeItems (changes : List ChangePackage) (norm : Bool) : List (String × TItem) :=
  (changes.filter (fun c => isNorm c.ty == norm)).map
    (fun c => (compiledNameOf c, compiledItemOf c))

/-- Replace the table stored at the first entry named `name`. -/
def mapTableAt : List (TKey × TItem) → String → (TTable → TTable) → List (TKey × TItem)
  | [], _, _ => []
  | (k, it) :: rest, name, f =>
      if k.text == name then
        match it with
        | .table t => (k, .table (f t)) :: rest
        | _ => (k, it) :: rest
      else (k, it) :: mapTableAt rest name f

def rtDepTable (t : TTable) : TTable :=
  (t.withImplicit true).withEntries (sortEntries t.entries)

def rtHackT (t : TTable) : TTable :=
  (t.withImplicit true).withEntries (t.entries ++ [(defaultKey "stash", .table freshImplicitTable)])

def rtMetaT (t : TTable) : TTable :=
  (t.withImplicit true).withEntries (mapTableAt t.entries "hackerman" rtHackT)

def rtPkgT (t : TTable) : TTable :=
  (t.withImplicit true).withEntries (mapTableAt t.entries "metadata" rtMetaT)

def rtTransform (M : TTable) : TTable :=
  M.withEntries
    (mapTableAt
      (mapTableAt
        (mapTableAt M.entries "dependencies" rtDepTable)
        "dev-dependencies" rtDepTable)
      "package" rtPkgT)

/-- A prior value the stash protocol can faithfully restore. -/
def displacedOk (o : Option TItem) : Bool :=
  match o with
  | none => true
  | some it => isInlineTableItem it || isStrItem it

/-- Whether `strip_banner` leaves this document alone: the first item
is addressable and its decor does not start with the banner. -/
def goodFirst : List (TKey × TItem) → Bool
  | [] => false
  | (_, it) :: _ =>
      match it with
      | .nothing => false
      | .arrayOfTables [] => false
      | _ => true

def firstPreOf : List (TKey × TItem) → Option String
  | [] => none
  | (_, it) :: _ =>
      match it with
      | .value v => valuePre v
      | .table t => t.pre
      | .arrayOfTables (t :: _) => t.pre
      | _ => none

/-- Whitespace-erased rendering: two documents equal up to whitespace
normalisation anywhere have equal `stripWS ∘ render`. -/
def stripWS (s : String) : String :=
  ⟨s.data.filter (fun c => !(c == ' ' || c == '\n' || c == '\t'))⟩

/-- The C2 counterexample manifest: `[dependencies]` with keys in the
order `b`, `a`, plus the full metadata chain. -/
def rtDepsTbl : TTable :=
  .mk (some "") (some "") false (some 1)
    [(⟨some "", "b", some " "⟩, .value (.vStr (some " ") "2" (some ""))),
     (⟨some "", "a", some " "⟩, .value (.vStr (some " ") "1" (some "")))]

def rtDevTbl : TTable := .mk (some "") (some "") false (some 2) []

def rtHackTbl : TTable := .mk none none true none []

def rtMetaTbl : TTable :=
  .mk none none true none [(⟨none, "hackerman", none⟩, .table rtHackTbl)]

def rtPkgTbl : TTable :=
  .mk (some "") (some "") false (some 3)
    [(⟨some "", "name", some " "⟩, .value (.vStr (some " ") "demo" (some ""))),
     (⟨none, "metadata", none⟩, .table rtMetaTbl)]

def rtMEntries : List (TKey × TItem) :=
  [(⟨some "", "dependencies", none⟩, .table rtDepsTbl),
   (⟨some "", "dev-dependencies", none⟩, .table rtDevTbl),
   (⟨some "", "package", none⟩, .table rtPkgTbl)]

def rtM : TTable := .mk none none false none rtMEntries

def rtChange : ChangePackage :=
  ⟨"z", .norm, "1.0.0", .registry "https://github.com/rust-lang/crates.io-index", ["feat"], false⟩

def rtHacked : TTable :=
  match setDependenciesToml rtM false [rtChange] with
  | .ok (_, d) => d
  | .error _ => rtM

def rtRestored : TTable :=
  match restoreToml rtHacked with
  | .ok (_, d) => d
  | .error _ => rtHacked

def stashDepEntries (d : TTable) : List (TKey × TItem) :=
  match lookupTablePath d normStashPath with
  | some t => t.entries
  | none => []

/-! ### Round-trip bookkeeping shapes (C2)

`savedOfS` is the stash the change loop records (displaced item, or
the `false` sentinel); `hackedTable` is a dependency table after the
loop; `stashBoth`/`hackChain` describe the metadata subtree right
after a no-lock edit. -/

def savedOfS (es : List (TKey × TItem)) (L : List (String × TItem)) :
    List (String × TItem) :=
  L.map (fun e => (e.1, (lookupEntry es e.1).getD falseSentinel))

def hackedTable (t : TTable) (L : List (String × TItem)) : TTable :=
  match L with
  | [] => t
  | _ => (t.withImplicit true).withEntries (foldInserts t.entries L)

def stashBoth (sn sd : List (TKey × TItem)) : TTable :=
  .mk none none true none
    [(defaultKey "dependencies", .table (.mk none none true (some 998) sn)),
     (defaultKey "dev-dependencies", .table (.mk none none true (some 999) sd))]

def hackHackT (TH : TTable) (sn sd : List (TKey × TItem)) : TTable :=
  (TH.withImplicit true).withEntries
    (TH.entries ++ [(defaultKey "stash", .table (stashBoth sn sd))])

def hackMetaT (TM TH : TTable) (sn sd : List (TKey × TItem)) : TTable :=
  (TM.withImplicit true).withEntries
    (insertEntry TM.entries "hackerman" (.table (hackHackT TH sn sd))).2

/-- The `package.metadata.hackerman` subtree as it looks right after a
no-lock edit: chain marked implicit, a fresh stash holding both saved
tables appended to `hackerman`. -/
def hackChain (TP TM TH : TTable) (sn sd : List (TKey × TItem)) : TTable :=
  (TP.withImplicit true).withEntries
    (insertEntry TP.entries "metadata" (.table (hackMetaT TM TH sn sd))).2

/-! ## Theorems -/

/-! ### Fidelity of the embedding

The embedding reproduces the checksum constants asserted by the
repository's own test suite (`target_specific_feats` and
`odd_declarations_are_supported` in `src/toml.rs`), which exercises
the SipHash-1-3 implementation, the string/float/inline-table/array
rendering and the checksum walk end to end. -/

theorem checksumTestVector1 : getChecksum demoDoc1 = 2329902156198620770 := rfl

theorem checksumTestVector2 : getChecksum demoDoc2 = 559992462246589769 := rfl

/-! ### Generic `Except` reductions -/

theorem exc_bind_ok {α β : Type} (a : α) (f : α → Except String β) :
    (Except.ok a : Except String α) >>= f = f a := rfl

theorem exc_bind_err {α β : Type} (e : String) (f : α → Except String β) :
    (Except.error e : Except String α) >>= f = .error e := rfl

theorem exc_pure {α : Type} (a : α) : (pure a : Except String α) = .ok a := rfl

/-! ### Banner helpers -/

theorem setFirst_of_first (t : TTable) (p : Option String) (s : String)
    (h : firstItemPre t = .ok p) :
    ∃ t', setFirstItemPre t s = .ok t' ∧ firstItemPre t' = .ok (some s) := by
  obtain ⟨pre, suf, imp, pos, es⟩ := t
  cases es with
  | nil => simp [firstItemPre, TTable.entries] at h
  | cons e rest =>
    obtain ⟨k, it⟩ := e
    cases it with
    | nothing => simp [firstItemPre, TTable.entries] at h
    | value v =>
      cases v <;>
        simp [firstItemPre, setFirstItemPre, valuePre, valueWithPre, TTable.withEntries, TTable.entries]
    | table tb =>
      cases tb
      simp [firstItemPre, setFirstItemPre, TTable.withEntries, TTable.entries, TTable.pre, TTable.suf,
        TTable.implicit, TTable.pos]
    | arrayOfTables ts =>
      cases ts with
      | nil => simp [firstItemPre, TTable.entries] at h
      | cons tb ts' =>
        cases tb
        simp [firstItemPre, setFirstItemPre, TTable.withEntries, TTable.entries, TTable.pre, TTable.suf,
          TTable.implicit, TTable.pos]

/-! ### Checksum stream helpers -/

theorem sse_append (a b : List (String × HShape)) :
    shapeStreamEntries (a ++ b) = shapeStreamEntries a ++ shapeStreamEntries b := by
  induction a with
  | nil => simp [shapeStreamEntries]
  | cons e rest ih =>
    obtain ⟨k, sh⟩ := e
    simp [shapeStreamEntries, ih]

theorem addChecksum_stream : ∀ it : TItem, ∀ h, addChecksum it h = h ++ shapeStream (hproj it) := by
  refine hproj.induct
    (fun it => ∀ h, addChecksum it h = h ++ shapeStream (hproj it))
    (fun ts => ∀ h, addChecksumTables ts h = h ++ shapeStreamEntries (hprojTables ts))
    (fun es => ∀ h, addChecksumEntries es h = h ++ shapeStreamEntries (hprojEntries es))
    ?_ ?_ ?_ ?_ ?_ ?_ ?_ ?_
  · intro h; simp [addChecksum, hproj, shapeStream]
  · intro v h; simp [addChecksum, hproj, shapeStream, hashStr]
  · intro pre suf imp pos es ih h; simp [addChecksum, hproj, shapeStream, ih]
  · intro ts ih h; simp [addChecksum, hproj, shapeStream, ih]
  · intro h; simp [addChecksumTables, hprojTables, shapeStreamEntries]
  · intro pre suf imp pos es rest ih1 ih2 h
    simp [addChecksumTables, hprojTables, sse_append, ih1, ih2]
  · intro h; simp [addChecksumEntries, hprojEntries, shapeStreamEntries]
  · intro k it rest ih1 ih2 h
    simp [addChecksumEntries, hprojEntries, shapeStreamEntries, ih1, ih2, hashStr]

theorem checksumFold_stream (es : List (TKey × TItem)) :
    ∀ h, checksumFold es h = h ++ streamsConcat (relevantShapes es) := by
  induction es with
  | nil => intro h; simp [checksumFold, relevantShapes, streamsConcat]
  | cons e rest ih =>
    obtain ⟨k, it⟩ := e
    intro h
    by_cases hk : k.text ∈ checksumKeys
    · simp [checksumFold, relevantShapes, streamsConcat, hk, ih, addChecksum_stream]
    · simp [checksumFold, relevantShapes, hk, ih]

/-! ### Claims -/

/-- C1: `verify_checksum` is supposed to fail with a checksum-mismatch
error exactly when the recorded `lock.dependencies` value differs from
the recomputed checksum.  The code has the comparison inverted: on a
manifest whose recorded value equals the recomputed checksum it fails
with the mismatch error, and on a manifest whose recorded value
differs it succeeds.  This theorem evaluates the embedded code at such
failing inputs. -/
theorem claim_c1_verify_checksum_inverted :
    getChecksum (lockedDoc lockedChecksum) = lockedChecksum ∧
    verifyChecksum (lockedDoc lockedChecksum) = .error "Checksum mismatch" ∧
    getChecksum (lockedDoc (lockedChecksum + 1)) = lockedChecksum ∧
    verifyChecksum (lockedDoc (lockedChecksum + 1)) = .ok () :=
  ⟨rfl, rfl, rfl, rfl⟩

/-- C4: a manifest with a top-level `target` key makes
`set_dependencies` fail with the target-dependencies-present error and
leaves the on-disk manifest untouched (no write happens on the error
path). -/
theorem claim_c4_target_rejected (doc : TTable) (lock : Bool) (changes : List ChangePackage)
    (h : containsKey doc "target" = true) :
    setDependenciesRun doc lock changes =
      (.error "target filtered dependencies present in the workspace are not supported by split mode hack",
       doc) := by
  simp [setDependenciesRun, setDependenciesToml, h]

/-- Witness for C4 at a concrete manifest with a `[target...]` table. -/
theorem claim_c4_target_rejected_witness :
    containsKey targetDoc "target" = true ∧
    setDependenciesRun targetDoc true [] =
      (.error "target filtered dependencies present in the workspace are not supported by split mode hack",
       targetDoc) :=
  ⟨rfl, claim_c4_target_rejected targetDoc true [] rfl⟩

/-- C5 (amended): `add_banner` prepends the banner to the first
top-level item's decor unconditionally — there is no presence check —
so the decor prefix after the call is always the banner followed by
the previous prefix. -/
theorem claim_c5_banner_unconditional (t : TTable) (p : Option String)
    (h : firstItemPre t = .ok p) :
    addBanner t = setFirstItemPre t (BANNER ++ p.getD "") ∧
    Except.bind (addBanner t) firstItemPre = .ok (some (BANNER ++ p.getD "")) := by
  have hb : addBanner t = setFirstItemPre t (BANNER ++ p.getD "") := by
    unfold addBanner
    rw [h]
    cases p with
    | some old => rfl
    | none => simp only [Option.getD]; rw [show BANNER ++ "" = BANNER from rfl]; rfl
  obtain ⟨t', hs, hf⟩ := setFirst_of_first t p (BANNER ++ p.getD "") h
  refine ⟨hb, ?_⟩
  rw [hb, hs]
  exact hf

/-- Witness for C5's amended statement at a concrete manifest. -/
theorem claim_c5_banner_unconditional_witness :
    addBanner plainDoc = setFirstItemPre plainDoc (BANNER ++ "") ∧
    Except.bind (addBanner plainDoc) firstItemPre = .ok (some (BANNER ++ "")) :=
  claim_c5_banner_unconditional plainDoc (some "") rfl

/-- C5 counterexample: applying `add_banner` to a manifest that
already carries the banner does not leave it unchanged — a second copy
of the banner is prepended, so the rendered document differs. -/
theorem claim_c5_banner_not_idempotent :
    renderAfterBanner bannerDoc ≠ some (render bannerDoc) ∧
    (renderAfterBanner bannerDoc).isSome = true := by
  exact ⟨by decide, rfl⟩

/-- C8 (amended): the checksum is a function of the decor-erased
shapes (key texts and decorated value renderings) of the checksum
relevant top-level items (`dependencies`, `dev-dependencies`,
`build-dependencies`, `target`), taken in document order: any two
documents that agree on those projections have equal checksums.  In
particular comments and whitespace attached to keys — even inside
those tables — and everything outside those items cannot change the
checksum; only key texts and decorated value text feed the hasher. -/
theorem claim_c8_checksum_depends_only_on_shapes (d1 d2 : TTable)
    (hrel : relevantShapes d1.entries = relevantShapes d2.entries) :
    getChecksum d1 = getChecksum d2 := by
  unfold getChecksum
  rw [checksumFold_stream, checksumFold_stream, hrel]

/-- Witness for C8's amended statement: two manifests differing in a
comment inside `[dependencies]` have equal projections and therefore
equal checksums. -/
theorem claim_c8_checksum_depends_only_on_shapes_witness :
    relevantShapes (commentDoc "# a\n").entries = relevantShapes (commentDoc "# b\n").entries ∧
    getChecksum (commentDoc "# a\n") = getChecksum (commentDoc "# b\n") :=
  ⟨rfl, claim_c8_checksum_depends_only_on_shapes _ _ rfl⟩

/-- C8 counterexample: mutating a byte inside the `dependencies` table
(the comment attached to the key `foo`) changes the rendered manifest
but not the checksum, refuting the claim that mutating bytes inside
those tables changes the checksum. -/
theorem claim_c8_comment_mutation_same_checksum :
    render (commentDoc "# a\n") ≠ render (commentDoc "# b\n") ∧
    getChecksum (commentDoc "# a\n") = getChecksum (commentDoc "# b\n") :=
  ⟨by decide, rfl⟩

/-- C10 (amended): `verify_checksum` never writes the manifest file,
and it succeeds whenever the walk to `package.metadata.hackerman.lock`
succeeds (every component present along the path is a table) and
yields an empty or freshly created lock table — regardless of the
dependency tables' contents. -/
theorem claim_c10_verify_reads_only_and_accepts_unlocked (doc tb d : TTable)
    (h : atPath (fun x => .ok (x, x)) doc lockPath [] = .ok (tb, d))
    (he : tb.entries = []) :
    verifyChecksum doc = .ok () ∧ (verifyChecksumRun doc).2 = doc := by
  constructor
  · simp [verifyChecksum, h, he, exc_bind_ok]
    rfl
  · rfl

/-- Witness for C10's amended statement at a concrete never-locked
manifest. -/
theorem claim_c10_verify_reads_only_and_accepts_unlocked_witness :
    verifyChecksum plainDoc = .ok () ∧ (verifyChecksumRun plainDoc).2 = plainDoc :=
  claim_c10_verify_reads_only_and_accepts_unlocked plainDoc freshImplicitTable _ rfl rfl

/-- C10 counterexample: a manifest whose top-level `package` key holds
a plain value has no `package.metadata.hackerman.lock` table at all,
yet `verify_checksum` fails on it (the `get_table` walk errors),
refuting the claim that every manifest without a lock table passes. -/
theorem claim_c10_missing_chain_fails :
    lookupTablePath badPkgDoc lockPath = none ∧
    verifyChecksum badPkgDoc = .error "Expected table at path " :=
  ⟨rfl, rfl⟩



theorem featTargetVectors :
    featTargetFrom "quote" = .named "quote" ∧
    featTargetFrom "dep:serde_json" = .dependency "serde_json" ∧
    featTargetFrom "syn/extra-tr" = .remote "syn" "extra-tr" ∧
    featTargetFrom "rgb?/serde" = .cond "rgb" "serde" := by
  refine ⟨?_, ?_, ?_, ?_⟩ <;> decide

theorem optimizeFeatsTests :
    optimizeFeats [("default", ["one"])] ["default", "one"] = ["default"] ∧
    optimizeFeats [("default", ["two"])] ["default", "one"] = ["default", "one"] ∧
    optimizeFeats [("default", ["one", "two"])] ["default", "one", "two"] = ["default"] := by
  refine ⟨?_, ?_, ?_⟩ <;> decide

theorem mem_btInsert (a x : String) (l : List String) :
    a ∈ btInsert x l ↔ a = x ∨ a ∈ l := by
  induction l with
  | nil => simp [btInsert]
  | cons y rest ih =>
    by_cases h1 : strLt x y
    · simp [btInsert, h1]
    · by_cases h2 : x == y
      · have h2' : x = y := by simpa using h2
        subst h2'
        simp [btInsert, h1]
      · simp only [btInsert, h1, h2, if_neg, Bool.false_eq_true, if_false, List.mem_cons, ih]
        tauto

theorem foldl_btInsert_mem (a : String) (ns : List String) : ∀ acc,
    a ∈ ns.foldl (fun ac n => btInsert n ac) acc ↔ a ∈ ns ∨ a ∈ acc := by
  induction ns with
  | nil => intro acc; simp
  | cons n rest ih =>
    intro acc
    simp only [List.foldl_cons]
    rw [ih, mem_btInsert]
    simp
    tauto

theorem mem_insertAllNames (a : String) (ns acc : List String) :
    a ∈ insertAllNames ns acc ↔ a ∈ ns ∨ a ∈ acc :=
  foldl_btInsert_mem a ns acc

theorem mem_collectImplicit (a : String) (declared : List (String × List String))
    (reqs : List String) : ∀ acc,
    a ∈ collectImplicit declared reqs acc ↔
      a ∈ acc ∨ ∃ y ∈ reqs, a ∈ namedTargets ((lookupAssoc declared y).getD []) := by
  induction reqs with
  | nil => intro acc; simp [collectImplicit]
  | cons r rest ih =>
    intro acc
    simp only [collectImplicit]
    rw [ih, mem_insertAllNames]
    simp
    tauto

theorem btRemove_eq_filter (x : String) (l : List String) (h : l.Nodup) :
    btRemove x l = l.filter (fun a => ! (a == x)) := by
  induction l with
  | nil => simp [btRemove]
  | cons y rest ih =>
    simp at h
    by_cases hxy : x = y
    · subst hxy
      simp [btRemove]
      rw [List.filter_eq_self.2]
      intro a ha
      simp
      intro he
      subst he
      exact absurd ha h.1
    · simp [btRemove, hxy, ih h.2, Ne.symm hxy, beq_iff_eq]

theorem btRemove_nodup (x : String) (l : List String) (h : l.Nodup) :
    (btRemove x l).Nodup := by
  rw [btRemove_eq_filter x l h]
  exact h.filter _

theorem fold_btRemove (S : List String) : ∀ l : List String, l.Nodup →
    S.foldl (fun req imp => btRemove imp req) l = l.filter (fun a => ! S.contains a) := by
  induction S with
  | nil => intro l h; simp
  | cons s rest ih =>
    intro l h
    simp only [List.foldl_cons]
    rw [ih (btRemove s l) (btRemove_nodup s l h), btRemove_eq_filter s l h,
      List.filter_filter]
    apply List.filter_congr
    intro a _
    simp only [List.contains_cons, Bool.not_or]
    rw [Bool.and_comm]

/-- C9 (amended): `optimize_feats` removes exactly those requested
features that are directly — in one step, with no transitive chasing —
implied by some requested feature through the `Named` feature targets
of its declared feature-dependencies:
`requested := requested \ { x | ∃ y ∈ requested, x ∈ named_targets(declared[y]) }`. -/
theorem claim_c9_optimize_feats_one_step (declared : List (String × List String)) (requested : List String)
    (h : requested.Nodup) :
    optimizeFeats declared requested =
      requested.filter (fun x =>
        ! requested.any (fun y => (namedTargets ((lookupAssoc declared y).getD [])).contains x)) := by
  unfold optimizeFeats
  rw [fold_btRemove _ _ h]
  apply List.filter_congr
  intro a _
  congr 1
  rw [Bool.eq_iff_iff]
  simp only [List.elem_iff, List.any_eq_true]
  rw [mem_collectImplicit]
  simp [List.elem_iff]

/-- Witness for C9's amended statement at the repository's own first
`optimize_feats` test case. -/
theorem claim_c9_optimize_feats_one_step_witness :
    optimizeFeats [("default", ["one"])] ["default", "one"] =
      (["default", "one"]).filter (fun x =>
        ! (["default", "one"]).any (fun y =>
            (namedTargets ((lookupAssoc [("default", ["one"])] y).getD [])).contains x)) :=
  claim_c9_optimize_feats_one_step [("default", ["one"])] ["default", "one"] (by decide)

/-- C9 counterexample: with features `a = ["b"]`, `b = ["c"]` and the
requested set `{a, c}`, the feature `c` is transitively implied by `a`
(through `b`), so the claimed rule removes it; the code does not,
because it only collects one step of implications. -/
theorem claim_c9_not_transitive :
    optimizeFeats [("a", ["b"]), ("b", ["c"])] ["a", "c"] = ["a", "c"] ∧
    specOptimizeFeats [("a", ["b"]), ("b", ["c"])] ["a", "c"] = ["a"] ∧
    optimizeFeats [("a", ["b"]), ("b", ["c"])] ["a", "c"] ≠
      specOptimizeFeats [("a", ["b"]), ("b", ["c"])] ["a", "c"] := by
  refine ⟨?_, ?_, ?_⟩ <;> decide





theorem lookupEntry_eq_none (es : List (TKey × TItem)) (n : String) :
    lookupEntry es n = none ↔ ∀ e ∈ es, e.1.text ≠ n := by
  unfold lookupEntry
  cases h : es.find? (fun e => e.1.text == n) with
  | none =>
    simp only [List.find?_eq_none] at h
    simp only [true_iff]
    intro e he
    simpa using h e he
  | some e =>
    have h1 := List.find?_some h
    have hm := List.mem_of_find?_eq_some h
    simp only [beq_iff_eq] at h1
    constructor
    · intro hc; exact absurd hc (by simp)
    · intro hall
      exact absurd h1 (hall e hm)

theorem lookup_insertEntry_self (es : List (TKey × TItem)) (n : String) (it : TItem) :
    lookupEntry (insertEntry es n it).2 n = some it := by
  induction es with
  | nil => simp [insertEntry, lookupEntry, defaultKey]
  | cons e rest ih =>
    obtain ⟨k, old⟩ := e
    by_cases hk : k.text == n
    · simp [insertEntry, hk, lookupEntry]
    · simp only [insertEntry, hk, Bool.false_eq_true, if_false]
      simpa [lookupEntry, List.find?, hk] using ih

theorem lookup_insertEntry_other (es : List (TKey × TItem)) (n : String) (it : TItem)
    (m : String) (h : m ≠ n) :
    lookupEntry (insertEntry es n it).2 m = lookupEntry es m := by
  have hnm : (n == m) = false := by
    rw [beq_eq_false_iff_ne]
    exact Ne.symm h
  induction es with
  | nil => simp [insertEntry, lookupEntry, defaultKey, List.find?, hnm]
  | cons e rest ih =>
    obtain ⟨k, old⟩ := e
    by_cases hk : k.text == n
    · have hk' : k.text = n := by simpa using hk
      have hkm : (k.text == m) = false := by
        rw [beq_eq_false_iff_ne, hk']
        exact Ne.symm h
      simp [insertEntry, hk, lookupEntry, List.find?, hkm]
    · by_cases hm : k.text == m
      · simp [insertEntry, hk, lookupEntry, List.find?, hm]
      · simp only [insertEntry, hk, Bool.false_eq_true, if_false]
        simpa [lookupEntry, List.find?, hm, hk] using ih

theorem lookup_removeEntry_other (es : List (TKey × TItem)) (n m : String) (h : m ≠ n) :
    lookupEntry (removeEntry es n).2 m = lookupEntry es m := by
  induction es with
  | nil => simp [removeEntry]
  | cons e rest ih =>
    obtain ⟨k, it⟩ := e
    by_cases hk : k.text == n
    · have hk' : k.text = n := by simpa using hk
      have hkm : (k.text == m) = false := by
        rw [beq_eq_false_iff_ne, hk']
        exact Ne.symm h
      simp [removeEntry, hk, lookupEntry, List.find?, hkm]
    · by_cases hm : k.text == m
      · simp [removeEntry, hk, lookupEntry, List.find?, hm]
      · simp only [removeEntry, hk, Bool.false_eq_true, if_false]
        simpa [lookupEntry, List.find?, hm, hk] using ih

theorem lookup_removeEntry_self (es : List (TKey × TItem)) (n : String)
    (h : (es.map (fun e => e.1.text)).Nodup) :
    lookupEntry (removeEntry es n).2 n = none := by
  induction es with
  | nil => simp [removeEntry, lookupEntry]
  | cons e rest ih =>
    obtain ⟨k, it⟩ := e
    rw [List.map_cons, List.nodup_cons] at h
    by_cases hk : k.text == n
    · have hk' : k.text = n := by simpa using hk
      simp only [removeEntry, hk, if_true]
      rw [lookupEntry_eq_none]
      intro e he hee
      apply h.1
      have hmm := List.mem_map_of_mem (fun e => e.1.text) he
      simp only at hmm
      rw [hee] at hmm
      simpa [hk'] using hmm
    · simp only [removeEntry, hk, Bool.false_eq_true, if_false]
      simpa [lookupEntry, List.find?, hk] using ih h.2

theorem removeEntry_sublist (es : List (TKey × TItem)) (n : String) :
    (removeEntry es n).2.Sublist es := by
  induction es with
  | nil => simp [removeEntry]
  | cons e rest ih =>
    obtain ⟨k, it⟩ := e
    by_cases hk : k.text == n
    · simp [removeEntry, hk]
    · simp only [removeEntry, hk, Bool.false_eq_true, if_false]
      exact List.Sublist.cons₂ _ ih

theorem removeEntry_nodup (es : List (TKey × TItem)) (n : String)
    (h : (es.map (fun e => e.1.text)).Nodup) :
    ((removeEntry es n).2.map (fun e => e.1.text)).Nodup :=
  ((removeEntry_sublist es n).map _).nodup h

theorem insertEntry_keys (es : List (TKey × TItem)) (n : String) (it : TItem) :
    (insertEntry es n it).2.map (fun e => e.1.text) =
      if (lookupEntry es n).isNone then es.map (fun e => e.1.text) ++ [n]
      else es.map (fun e => e.1.text) := by
  induction es with
  | nil => simp [insertEntry, lookupEntry, defaultKey]
  | cons e rest ih =>
    obtain ⟨k, old⟩ := e
    by_cases hk : k.text == n
    · simp [insertEntry, hk, lookupEntry, List.find?]
    · have hcons : (lookupEntry ((k, old) :: rest) n).isNone = (lookupEntry rest n).isNone := by
        simp [lookupEntry, List.find?, hk]
      simp only [insertEntry, hk, Bool.false_eq_true, if_false, List.map_cons, hcons]
      by_cases hr : (lookupEntry rest n).isNone
      · simp only [hr, if_true] at ih ⊢
        rw [ih]
        simp
      · simp only [hr, Bool.false_eq_true, if_false] at ih ⊢
        rw [ih]

theorem insertEntry_nodup (es : List (TKey × TItem)) (n : String) (it : TItem)
    (h : (es.map (fun e => e.1.text)).Nodup) :
    ((insertEntry es n it).2.map (fun e => e.1.text)).Nodup := by
  rw [insertEntry_keys]
  by_cases hl : (lookupEntry es n).isNone
  · simp only [hl, if_true]
    rw [List.nodup_append]
    refine ⟨h, List.nodup_singleton n, ?_⟩
    intro a ha hb
    simp at hb
    rw [hb] at ha
    have hnone : lookupEntry es n = none := Option.isNone_iff_eq_none.1 hl
    rw [lookupEntry_eq_none] at hnone
    obtain ⟨e, he, hee⟩ := List.mem_map.1 ha
    exact hnone e he hee
  · simp only [hl, Bool.false_eq_true, if_false]
    exact h



theorem bool_not_inline_str (it : TItem)
    (hgood : (isInlineTableItem it || isStrItem it) = true) : isBoolItem it = false := by
  cases it with
  | value v => cases v <;> simp [isInlineTableItem, isStrItem, isBoolItem] at hgood ⊢
  | nothing => simp [isInlineTableItem, isStrItem] at hgood
  | table t => simp [isInlineTableItem, isStrItem] at hgood
  | arrayOfTables ts => simp [isInlineTableItem, isStrItem] at hgood

/-- C3 (amended): for every stash entry processed by restore, an
inline-table or string value is written back into the live table
(replacing whatever is there), ANY boolean value — not only the
`false` sentinel — deletes the key, and restore fails with the
corrupted-key error exactly when some stash entry is none of these;
keys never stashed keep their prior binding. -/
theorem claim_c3_restore_stash_semantics (es : List (TKey × TItem)) :
    ∀ live : List (TKey × TItem),
    (live.map (fun e => e.1.text)).Nodup →
    (es.map (fun e => e.1.text)).Nodup →
    ((∃ e ∈ es, stashEntryCorrupted e.2 = true) → ∃ msg, restoreEntries live es = .error msg) ∧
    (∀ res, restoreEntries live es = .ok res →
      (∀ e ∈ es, stashEntryCorrupted e.2 = false) ∧
      (∀ k it, (k, it) ∈ es →
        (isBoolItem it = true → lookupEntry res k.text = none) ∧
        ((isInlineTableItem it || isStrItem it) = true → lookupEntry res k.text = some it)) ∧
      (∀ name, (∀ e ∈ es, e.1.text ≠ name) → lookupEntry res name = lookupEntry live name)) := by
  induction es with
  | nil =>
    intro live hl hs
    constructor
    · rintro ⟨e, he, _⟩
      cases he
    · intro res hres
      have heq : live = res := by simpa [restoreEntries] using hres
      subst heq
      refine ⟨?_, ?_, fun name _ => rfl⟩
      · intro e he
        cases he
      · intro k it hmem
        cases hmem
  | cons e rest ih =>
    intro live hl hs
    obtain ⟨k, it⟩ := e
    rw [List.map_cons, List.nodup_cons] at hs
    by_cases hgood : (isInlineTableItem it || isStrItem it) = true
    · have hbool := bool_not_inline_str it hgood
      have hstep : restoreEntries live ((k, it) :: rest) =
          restoreEntries (insertEntry live k.text it).2 rest := by
        simp [restoreEntries, hgood]
      have hl' := insertEntry_nodup live k.text it hl
      obtain ⟨ihE, ihO⟩ := ih (insertEntry live k.text it).2 hl' hs.2
      constructor
      · rintro ⟨e, he, hcorr⟩
        rcases List.mem_cons.1 he with he | he
        · rw [he] at hcorr
          simp [stashEntryCorrupted, hgood] at hcorr
        · obtain ⟨msg, hmsg⟩ := ihE ⟨e, he, hcorr⟩
          exact ⟨msg, by rw [hstep]; exact hmsg⟩
      · intro res hres
        rw [hstep] at hres
        obtain ⟨hAll, hPer, hUn⟩ := ihO res hres
        refine ⟨?_, ?_, ?_⟩
        · intro e he
          rcases List.mem_cons.1 he with he | he
          · rw [he]
            simp [stashEntryCorrupted, hgood]
          · exact hAll e he
        · intro k' it' hmem
          rcases List.mem_cons.1 hmem with hmem | hmem
          · simp only [Prod.mk.injEq] at hmem
            obtain ⟨h1, h2⟩ := hmem
            subst h1
            subst h2
            have hrk : ∀ e ∈ rest, e.1.text ≠ k'.text := by
              intro e he hee
              exact hs.1 (hee ▸ List.mem_map_of_mem (fun e => e.1.text) he)
            have hu := hUn k'.text hrk
            rw [lookup_insertEntry_self] at hu
            constructor
            · intro hb
              simp [hb] at hbool
            · intro _
              exact hu
          · exact hPer k' it' hmem
        · intro name hname
          have h1 := hUn name (fun e he => hname e (List.mem_cons_of_mem _ he))
          have h2 : name ≠ k.text := fun hne => hname (k, it) (List.mem_cons_self _ _) hne.symm
          rw [h1, lookup_insertEntry_other live k.text it name h2]
    · by_cases hbool : isBoolItem it = true
      · have hstep : restoreEntries live ((k, it) :: rest) =
            restoreEntries (removeEntry live k.text).2 rest := by
          simp [restoreEntries, hgood, hbool]
        have hl' := removeEntry_nodup live k.text hl
        obtain ⟨ihE, ihO⟩ := ih (removeEntry live k.text).2 hl' hs.2
        constructor
        · rintro ⟨e, he, hcorr⟩
          rcases List.mem_cons.1 he with he | he
          · rw [he] at hcorr
            simp [stashEntryCorrupted, hbool] at hcorr
          · obtain ⟨msg, hmsg⟩ := ihE ⟨e, he, hcorr⟩
            exact ⟨msg, by rw [hstep]; exact hmsg⟩
        · intro res hres
          rw [hstep] at hres
          obtain ⟨hAll, hPer, hUn⟩ := ihO res hres
          refine ⟨?_, ?_, ?_⟩
          · intro e he
            rcases List.mem_cons.1 he with he | he
            · rw [he]
              simp [stashEntryCorrupted, hbool]
            · exact hAll e he
          · intro k' it' hmem
            rcases List.mem_cons.1 hmem with hmem | hmem
            · simp only [Prod.mk.injEq] at hmem
              obtain ⟨h1, h2⟩ := hmem
              subst h1
              subst h2
              have hrk : ∀ e ∈ rest, e.1.text ≠ k'.text := by
                intro e he hee
                exact hs.1 (hee ▸ List.mem_map_of_mem (fun e => e.1.text) he)
              have hu := hUn k'.text hrk
              rw [lookup_removeEntry_self live k'.text hl] at hu
              constructor
              · intro _
                exact hu
              · intro hg
                exact absurd hg hgood
            · exact hPer k' it' hmem
          · intro name hname
            have h1 := hUn name (fun e he => hname e (List.mem_cons_of_mem _ he))
            have h2 : name ≠ k.text := fun hne => hname (k, it) (List.mem_cons_self _ _) hne.symm
            rw [h1, lookup_removeEntry_other live k.text name h2]
      · have hstep : restoreEntries live ((k, it) :: rest) =
            .error ("Corrupted key " ++ k.text) := by
          simp [restoreEntries, hgood, hbool]
        constructor
        · intro _
          exact ⟨_, hstep⟩
        · intro res hres
          rw [hstep] at hres
          cases hres


/-- Witness for C3's amended statement: restoring a concrete stash
deletes the sentinel key `z`, writes the stashed string back over `a`
and leaves `b` alone. -/
theorem claim_c3_restore_stash_semantics_witness :
    restoreEntries c3Live c3Stash = .ok c3Result ∧
    lookupEntry c3Result "z" = none ∧
    lookupEntry c3Result "a" = some (.value (.vStr none "0.9" none)) ∧
    lookupEntry c3Result "b" = lookupEntry c3Live "b" := by
  have h := (claim_c3_restore_stash_semantics c3Stash c3Live (by decide) (by decide)).2
    c3Result rfl
  refine ⟨rfl, ?_, ?_, ?_⟩
  · exact (h.2.1 ⟨none, "z", none⟩ falseSentinel (List.Mem.head _)).1 rfl
  · exact (h.2.1 ⟨none, "a", none⟩ (.value (.vStr none "0.9" none))
      (List.Mem.tail _ (List.Mem.head _))).2 rfl
  · exact h.2.2 "b" (by decide)

/-- C3 counterexample: a stash entry holding the boolean `true` is not
the `false` sentinel, yet restore succeeds and deletes the key instead
of failing with a stash-corrupted error. -/
theorem claim_c3_true_bool_deletes_without_error :
    Except.map (fun p => p.1) (restoreToml trueStashDoc) = .ok true ∧
    Except.map (fun p => lookupEntry (depTableEntries p.2) "foo") (restoreToml trueStashDoc) =
      .ok none :=
  ⟨rfl, rfl⟩

/-! ### Feature graph lemmas and claims C6, C7 -/


theorem fidIndex_edges (st : FG) (f : Fid) : (fidIndex st f).2.edges = st.edges := by
  unfold fidIndex
  cases lookupFid st f <;> rfl

theorem mem_updateEdgeList (a b : Nat) (o : Bool) (k : DepKindInfo) :
    ∀ es es', updateEdgeList a b o k es = some es' →
      ∀ e ∈ es', e ∈ es ∨ e.1 = a := by
  intro es
  induction es with
  | nil => intro es' h; cases h
  | cons f rest ih =>
    obtain ⟨x, y, l⟩ := f
    intro es' h
    by_cases hx : (x == a && y == b) = true
    · simp only [updateEdgeList, hx, if_true, Option.some.injEq] at h
      subst h
      have hx' : x = a ∧ y = b := by simpa using hx
      intro e he
      rcases List.mem_cons.1 he with he | he
      · right
        rw [he]
        exact hx'.1
      · exact Or.inl (List.mem_cons_of_mem _ he)
    · simp only [updateEdgeList, hx, Bool.false_eq_true, if_false] at h
      cases hr : updateEdgeList a b o k rest with
      | none => rw [hr] at h; cases h
      | some rest' =>
        rw [hr] at h
        injection h with h
        subst h
        intro e he
        rcases List.mem_cons.1 he with he | he
        · exact Or.inl (by rw [he]; exact List.mem_cons_self _ _)
        · rcases ih rest' hr e he with h1 | h1
          · exact Or.inl (List.mem_cons_of_mem _ h1)
          · exact Or.inr h1

theorem mem_addEdgeIx (st : FG) (a b : Nat) (o : Bool) (k : DepKindInfo) :
    ∀ e ∈ (addEdgeIx st a b o k).edges, e ∈ st.edges ∨ e.1 = a := by
  unfold addEdgeIx
  cases h : updateEdgeList a b o k st.edges with
  | some es' =>
    intro e he
    exact mem_updateEdgeList a b o k st.edges es' h e he
  | none =>
    intro e he
    simp only at he
    rcases List.mem_append.1 he with he | he
    · exact Or.inl he
    · right
      simp at he
      rw [he]

theorem mem_addFeatEdge (packages : List MPackage) (resolved : MPackage) (srcIx : Nat)
    (dep : MDep) (st : FG) (feat : String) :
    ∀ e ∈ (addFeatEdge packages resolved srcIx dep st feat).edges,
      e ∈ st.edges ∨ e.1 = srcIx := by
  unfold addFeatEdge
  cases pidOf packages resolved.id with
  | none => intro e he; exact Or.inl he
  | some rpid =>
    intro e he
    simp only at he
    obtain ⟨fix, st1, hfi⟩ : ∃ fix st1, fidIndex st ⟨rpid, .named feat⟩ = (fix, st1) :=
      ⟨_, _, rfl⟩
    rw [hfi] at he
    rcases mem_addEdgeIx st1 srcIx fix false (depKindInfoOf dep) e he with h1 | h1
    · rw [show st1 = (fidIndex st ⟨rpid, .named feat⟩).2 from by rw [hfi]] at h1
      rw [fidIndex_edges] at h1
      exact Or.inl h1
    · exact Or.inr h1

theorem mem_foldl_edges {α : Type} (srcIx : Nat) (g : FG → α → FG)
    (hg : ∀ st f, ∀ e ∈ (g st f).edges, e ∈ st.edges ∨ e.1 = srcIx) :
    ∀ (xs : List α) (st : FG), ∀ e ∈ (xs.foldl g st).edges, e ∈ st.edges ∨ e.1 = srcIx := by
  intro xs
  induction xs with
  | nil => intro st e he; exact Or.inl he
  | cons x rest ih =>
    intro st e he
    rw [List.foldl_cons] at he
    rcases ih (g st x) e he with h1 | h1
    · exact hg st x e h1
    · exact Or.inr h1



theorem processDep_skip (packages : List MPackage) (wsMember : Bool) (this baseIx : Nat)
    (st : FG) (deps : List (String × Nat × MDep × Nat)) (dep : MDep)
    (hres : findResolvedIdx packages dep = none) :
    processDep packages wsMember this baseIx st deps dep = (st, deps) := by
  unfold processDep
  by_cases hskip : (!wsMember && dep.kind == .development) = true
  · rw [if_pos (by simpa using hskip)]
  · rw [if_neg (by simpa using hskip), hres]

theorem processDep_edges (packages : List MPackage) (wsMember : Bool) (this baseIx : Nat)
    (st : FG) (deps : List (String × Nat × MDep × Nat)) (dep : MDep)
    (srcIx : Nat) (stSrc : FG)
    (hsrc : (if dep.optional then fidIndex st ⟨this, .named dep.name⟩ else (baseIx, st)) =
      (srcIx, stSrc)) :
    ∀ e ∈ (processDep packages wsMember this baseIx st deps dep).1.edges,
      e ∈ st.edges ∨ e.1 = srcIx := by
  have hedges : stSrc.edges = st.edges := by
    by_cases ho : dep.optional
    · rw [if_pos ho] at hsrc
      have h2 := fidIndex_edges st ⟨this, .named dep.name⟩
      rw [hsrc] at h2
      exact h2
    · rw [if_neg ho] at hsrc
      have h2 := congrArg Prod.snd hsrc
      simp only at h2
      rw [← h2]
  cases hres : findResolvedIdx packages dep with
  | none =>
    rw [processDep_skip packages wsMember this baseIx st deps dep hres]
    intro e he
    exact Or.inl he
  | some ridx =>
    unfold processDep
    by_cases hskip : (!wsMember && dep.kind == .development) = true
    · rw [if_pos (by simpa using hskip)]
      intro e he
      exact Or.inl he
    · rw [if_neg (by simpa using hskip)]
      simp only [hres]
      cases hget : packages.get? ridx with
      | none =>
        intro e he
        exact Or.inl he
      | some resolved =>
        simp only [hsrc]
        cases hudf : dep.usesDefaultFeatures with
        | true =>
          cases hp : pidOf packages resolved.id with
          | some rpid =>
            obtain ⟨bix, st2, hfi⟩ :
                ∃ a b, fidIndex stSrc (pidRootFid resolved rpid) = (a, b) := ⟨_, _, rfl⟩
            simp only [hfi]
            intro e he
            rcases mem_foldl_edges srcIx (addFeatEdge packages resolved srcIx dep)
              (mem_addFeatEdge packages resolved srcIx dep) dep.features
              (addEdgeIx st2 srcIx bix false (depKindInfoOf dep)) e he with h1 | h1
            · rcases mem_addEdgeIx st2 srcIx bix false (depKindInfoOf dep) e h1 with h2 | h2
              · have h3 := fidIndex_edges stSrc (pidRootFid resolved rpid)
                rw [hfi] at h3
                simp only at h3
                rw [h3, hedges] at h2
                exact Or.inl h2
              · exact Or.inr h2
            · exact Or.inr h1
          | none =>
            intro e he
            rcases mem_foldl_edges srcIx (addFeatEdge packages resolved srcIx dep)
              (mem_addFeatEdge packages resolved srcIx dep) dep.features stSrc e he with h1 | h1
            · rw [hedges] at h1
              exact Or.inl h1
            · exact Or.inr h1
        | false =>
          cases hp : pidOf packages resolved.id with
          | some rpid =>
            obtain ⟨bix, st2, hfi⟩ :
                ∃ a b, fidIndex stSrc ⟨rpid, .base⟩ = (a, b) := ⟨_, _, rfl⟩
            simp only [hfi]
            intro e he
            rcases mem_foldl_edges srcIx (addFeatEdge packages resolved srcIx dep)
              (mem_addFeatEdge packages resolved srcIx dep) dep.features
              (addEdgeIx st2 srcIx bix false (depKindInfoOf dep)) e he with h1 | h1
            · rcases mem_addEdgeIx st2 srcIx bix false (depKindInfoOf dep) e h1 with h2 | h2
              · have h3 := fidIndex_edges stSrc ⟨rpid, .base⟩
                rw [hfi] at h3
                simp only at h3
                rw [h3, hedges] at h2
                exact Or.inl h2
              · exact Or.inr h2
            · exact Or.inr h1
          | none =>
            intro e he
            rcases mem_foldl_edges srcIx (addFeatEdge packages resolved srcIx dep)
              (mem_addFeatEdge packages resolved srcIx dep) dep.features stSrc e he with h1 | h1
            · rw [hedges] at h1
              exact Or.inl h1
            · exact Or.inr h1



/-- C6 (amended): the dependency loop of `add_package` resolves `dep`
as the FIRST package matching the name and the version requirement
only — when no such package exists the dependency is skipped with no
change to graph or cache — and every edge the iteration adds leaves
from `P.Named(dep.name)` when the dependency is optional (the rename,
like the source, is not consulted for the node) and from `P.Base`
otherwise. -/
theorem claim_c6_dependency_resolution_and_source_node (packages : List MPackage)
    (wsMember : Bool) (this baseIx : Nat) (st : FG)
    (deps : List (String × Nat × MDep × Nat)) (dep : MDep) :
    (findResolvedIdx packages dep = none →
      processDep packages wsMember this baseIx st deps dep = (st, deps)) ∧
    (dep.optional = true →
      ∀ e ∈ (processDep packages wsMember this baseIx st deps dep).1.edges,
        e ∈ st.edges ∨ e.1 = (fidIndex st ⟨this, .named dep.name⟩).1) ∧
    (dep.optional = false →
      ∀ e ∈ (processDep packages wsMember this baseIx st deps dep).1.edges,
        e ∈ st.edges ∨ e.1 = baseIx) := by
  refine ⟨processDep_skip packages wsMember this baseIx st deps dep, ?_, ?_⟩
  · intro ho
    exact processDep_edges packages wsMember this baseIx st deps dep
      (fidIndex st ⟨this, .named dep.name⟩).1 (fidIndex st ⟨this, .named dep.name⟩).2
      (by rw [if_pos ho])
  · intro ho
    exact processDep_edges packages wsMember this baseIx st deps dep baseIx st
      (by rw [if_neg (by simp [ho])])

/-- Witness for C6's amended statement: the edge created for the
optional renamed dependency of the counterexample workspace leaves
from the node of `Named("foo")`. -/
theorem claim_c6_dependency_resolution_and_source_node_witness :
    (1, 2, (⟨false, [⟨.normal, none⟩]⟩ : Link)) ∈
      (processDep cxPackages true 2 0 cxInit [] fooDep).1.edges ∧
    ((1, 2, (⟨false, [⟨.normal, none⟩]⟩ : Link)) ∈ cxInit.edges ∨
      (1, 2, (⟨false, [⟨.normal, none⟩]⟩ : Link)).1 =
        (fidIndex cxInit ⟨2, .named "foo"⟩).1) :=
  ⟨by decide,
   (claim_c6_dependency_resolution_and_source_node cxPackages true 2 0 cxInit [] fooDep).2.1
     rfl (1, 2, ⟨false, [⟨.normal, none⟩]⟩) (by decide)⟩

/-- C6 counterexample: with two packages both named `foo 1.0.0` — the
first from the registry, the second from git — and an optional
dependency that names the git source and is renamed to `bar`, the
claim resolves Q to the git package and hangs the edges off
`Named("bar")`; the code takes the first name/version match (the
registry package, its source mismatched) and hangs the edge off
`Named("foo")` — no node for `Named("bar")` or for the git package is
created at all. -/
theorem claim_c6_source_and_rename_consulted_refuted :
    specFindResolved cxPackages fooDep = some 1 ∧
    findResolvedIdx cxPackages fooDep = some 0 ∧
    hasEdgeBetween cxResult ⟨2, .named "foo"⟩ ⟨0, .base⟩ = true ∧
    lookupFid cxResult ⟨2, .named "bar"⟩ = none ∧
    lookupFid cxResult ⟨1, .base⟩ = none ∧
    lookupFid cxResult ⟨1, .named "bar"⟩ = none :=
  ⟨rfl, rfl, rfl, rfl, rfl, rfl⟩

/-- C7: a weak feature-dependency string `krate?/feat` (parsed as
`Cond`) adds no edge and no node; when `krate` resolves in the `deps`
cache, the only effect is pushing
`Trigger (package := P) (feature := P.Named(owning feature))
(weak_dep := resolved) (weak_feat := resolved.Named(feat))` onto
`triggers[P]`. -/
theorem claim_c7_cond_pushes_trigger_only (packages : List MPackage)
    (this featIx : Nat) (featName : String)
    (deps : List (String × Nat × MDep × Nat)) (st : FG) (s : String)
    (krate feat : String) (ridx : Nat) (link : MDep) (remote : Nat)
    (resolved : MPackage) (rpid : Nat)
    (hparse : featTargetFrom s = .cond krate feat)
    (hdeps : lookupDeps deps krate = some (ridx, link, remote))
    (hget : packages.get? ridx = some resolved)
    (hpid : pidOf packages resolved.id = some rpid) :
    processFeatDep packages this featIx featName deps st s =
      { st with triggers := (pushTrigger st.triggers this
          ⟨this, ⟨this, .named featName⟩, rpid, ⟨rpid, .named feat⟩⟩) } := by
  unfold processFeatDep
  rw [hparse]
  simp only [hdeps, hget, hpid]

/-- Witness for C7 at the weak string of the repository's own test
vector, `rgb?/serde`. -/
theorem claim_c7_cond_pushes_trigger_only_witness :
    processFeatDep [rgbPkg] 3 7 "serde1" cx7Deps cxInit "rgb?/serde" =
      { cxInit with triggers := (pushTrigger cxInit.triggers 3
          ⟨3, ⟨3, .named "serde1"⟩, 0, ⟨0, .named "serde"⟩⟩) } :=
  claim_c7_cond_pushes_trigger_only [rgbPkg] 3 7 "serde1" cx7Deps cxInit "rgb?/serde"
    "rgb" "serde" 0 fooDep 9 rgbPkg 0 rfl rfl rfl rfl


/-! ### Table accessor algebra (C2) -/

theorem entries_withImplicit (t : TTable) (b : Bool) :
    (t.withImplicit b).entries = t.entries := by
  obtain ⟨p, s, i, q, es⟩ := t; rfl

theorem pre_withImplicit (t : TTable) (b : Bool) :
    (t.withImplicit b).pre = t.pre := by
  obtain ⟨p, s, i, q, es⟩ := t; rfl

theorem pre_withEntries (t : TTable) (es : List (TKey × TItem)) :
    (t.withEntries es).pre = t.pre := by
  obtain ⟨p, s, i, q, es0⟩ := t; rfl

theorem entries_withEntries (t : TTable) (es : List (TKey × TItem)) :
    (t.withEntries es).entries = es := by
  obtain ⟨p, s, i, q, es0⟩ := t; rfl

theorem withImplicit_withEntries (t : TTable) (es : List (TKey × TItem)) (b : Bool) :
    (t.withEntries es).withImplicit b = (t.withImplicit b).withEntries es := by
  obtain ⟨p, s, i, q, es0⟩ := t; rfl

theorem withImplicit_withImplicit (t : TTable) (a b : Bool) :
    (t.withImplicit a).withImplicit b = t.withImplicit b := by
  obtain ⟨p, s, i, q, es⟩ := t; rfl

theorem withEntries_withEntries (t : TTable) (es fs : List (TKey × TItem)) :
    (t.withEntries es).withEntries fs = t.withEntries fs := by
  obtain ⟨p, s, i, q, es0⟩ := t; rfl

/-! ### Insert/remove cancellation on entry lists (C2) -/

theorem insert_absent (es : List (TKey × TItem)) (n : String) (it : TItem)
    (h : lookupEntry es n = none) :
    insertEntry es n it = (none, es ++ [(defaultKey n, it)]) := by
  induction es with
  | nil => rfl
  | cons e rest ih =>
    obtain ⟨k, old⟩ := e
    by_cases hk : k.text == n
    · exact absurd h (by simp [lookupEntry, List.find?, hk])
    · have hr : lookupEntry rest n = none := by
        simpa [lookupEntry, List.find?, hk] using h
      simp [insertEntry, hk, ih hr]

theorem insert_present_value (es : List (TKey × TItem)) (n : String) (v : TItem)
    (h : lookupEntry es n = some v) :
    (insertEntry es n v).2 = es := by
  induction es with
  | nil => simp [lookupEntry] at h
  | cons e rest ih =>
    obtain ⟨k, old⟩ := e
    by_cases hk : k.text == n
    · have hold : old = v := by
        simpa [lookupEntry, List.find?, hk] using h
      simp [insertEntry, hk, hold]
    · have hr : lookupEntry rest n = some v := by
        simpa [lookupEntry, List.find?, hk] using h
      simp [insertEntry, hk, ih hr]

theorem remove_append_self (es : List (TKey × TItem)) (n : String) (k : TKey) (it : TItem)
    (h : lookupEntry es n = none) (hk : k.text = n) :
    (removeEntry (es ++ [(k, it)]) n).2 = es := by
  induction es with
  | nil => simp [removeEntry, hk]
  | cons e rest ih =>
    obtain ⟨k2, old⟩ := e
    by_cases hk2 : k2.text == n
    · exact absurd h (by simp [lookupEntry, List.find?, hk2])
    · have hr : lookupEntry rest n = none := by
        simpa [lookupEntry, List.find?, hk2] using h
      simp [removeEntry, hk2, ih hr]

theorem remove_insert_absent (es : List (TKey × TItem)) (n : String) (it : TItem)
    (h : lookupEntry es n = none) :
    (removeEntry (insertEntry es n it).2 n).2 = es := by
  rw [insert_absent es n it h]
  exact remove_append_self es n _ it h rfl

theorem insert_insert_same (es : List (TKey × TItem)) (n : String) (i j : TItem) :
    (insertEntry (insertEntry es n i).2 n j).2 = (insertEntry es n j).2 := by
  induction es with
  | nil => simp [insertEntry, defaultKey]
  | cons e rest ih =>
    obtain ⟨k, old⟩ := e
    by_cases hk : k.text == n
    · simp [insertEntry, hk]
    · simp [insertEntry, hk, ih]

theorem insert_insert_comm (es : List (TKey × TItem)) (n m : String) (j i : TItem)
    (hnm : m ≠ n) (hn : (lookupEntry es n).isSome) :
    (insertEntry (insertEntry es m i).2 n j).2 =
      (insertEntry (insertEntry es n j).2 m i).2 := by
  induction es with
  | nil => simp [lookupEntry] at hn
  | cons e rest ih =>
    obtain ⟨k, old⟩ := e
    by_cases hkn : k.text == n
    · have hkm : (k.text == m) = false := by
        rw [beq_eq_false_iff_ne]
        intro hc
        exact hnm ((beq_iff_eq.1 hkn) ▸ hc ▸ rfl)
      simp [insertEntry, hkn, hkm]
    · by_cases hkm : k.text == m
      · simp [insertEntry, hkn, hkm]
      · have hn' : (lookupEntry rest n).isSome := by
          simpa [lookupEntry, List.find?, hkn] using hn
        simp [insertEntry, hkn, hkm, ih hn']

theorem remove_insert_comm (es : List (TKey × TItem)) (n m : String) (i : TItem)
    (hnm : m ≠ n) :
    (removeEntry (insertEntry es m i).2 n).2 =
      (insertEntry (removeEntry es n).2 m i).2 := by
  induction es with
  | nil =>
    have hd : ((defaultKey m).text == n) = false := by
      rw [beq_eq_false_iff_ne]
      simpa [defaultKey] using hnm
    simp [insertEntry, removeEntry, hd]
  | cons e rest ih =>
    obtain ⟨k, old⟩ := e
    by_cases hkm : k.text == m
    · have hkn : (k.text == n) = false := by
        rw [beq_eq_false_iff_ne]
        intro hc
        exact hnm ((beq_iff_eq.1 hkm) ▸ hc ▸ rfl)
      simp [insertEntry, removeEntry, hkm, hkn]
    · by_cases hkn : k.text == n
      · simp [insertEntry, removeEntry, hkm, hkn]
      · simp [insertEntry, removeEntry, hkm, hkn, ih]

theorem removeEntry_not_found (es : List (TKey × TItem)) (n : String)
    (h : lookupEntry es n = none) : removeEntry es n = (none, es) := by
  induction es with
  | nil => rfl
  | cons e rest ih =>
    obtain ⟨k, it⟩ := e
    by_cases hk : k.text == n
    · exact absurd h (by simp [lookupEntry, List.find?, hk])
    · have hr : lookupEntry rest n = none := by
        simpa [lookupEntry, List.find?, hk] using h
      simp [removeEntry, hk, ih hr]

theorem lookup_append_of_none (es : List (TKey × TItem)) (n : String) (k : TKey) (it : TItem)
    (h : lookupEntry es n = none) :
    lookupEntry (es ++ [(k, it)]) n = if k.text == n then some it else none := by
  induction es with
  | nil =>
    by_cases hk : k.text == n
    · simp [lookupEntry, List.find?, hk]
    · simp [lookupEntry, List.find?, hk]
  | cons e rest ih =>
    obtain ⟨k2, old⟩ := e
    by_cases hk2 : k2.text == n
    · exact absurd h (by simp [lookupEntry, List.find?, hk2])
    · have hr : lookupEntry rest n = none := by
        simpa [lookupEntry, List.find?, hk2] using h
      simpa [lookupEntry, List.find?, hk2] using ih hr

theorem insert_append_self (es : List (TKey × TItem)) (n : String) (k : TKey)
    (old it : TItem) (h : lookupEntry es n = none) (hk : k.text = n) :
    (insertEntry (es ++ [(k, old)]) n it).2 = es ++ [(k, it)] := by
  induction es with
  | nil => simp [insertEntry, hk]
  | cons e rest ih =>
    obtain ⟨k2, o2⟩ := e
    by_cases hk2 : k2.text == n
    · exact absurd h (by simp [lookupEntry, List.find?, hk2])
    · have hr : lookupEntry rest n = none := by
        simpa [lookupEntry, List.find?, hk2] using h
      simp [insertEntry, hk2, ih hr]

theorem foldInserts_cons (es : List (TKey × TItem)) (e : String × TItem)
    (L : List (String × TItem)) :
    foldInserts es (e :: L) = foldInserts (insertEntry es e.1 e.2).2 L := rfl

theorem lookup_foldInserts_other (L : List (String × TItem)) (es : List (TKey × TItem))
    (n : String) (h : ∀ e ∈ L, e.1 ≠ n) :
    lookupEntry (foldInserts es L) n = lookupEntry es n := by
  induction L generalizing es with
  | nil => rfl
  | cons e L ih =>
    rw [foldInserts_cons, ih _ (fun f hf => h f (List.mem_cons_of_mem e hf)),
      lookup_insertEntry_other _ _ _ _ (Ne.symm (h e (List.mem_cons_self e L)))]

theorem insert_foldInserts (L : List (String × TItem)) (es : List (TKey × TItem))
    (n : String) (j : TItem) (hn : (lookupEntry es n).isSome) (h : ∀ e ∈ L, e.1 ≠ n) :
    (insertEntry (foldInserts es L) n j).2 = foldInserts (insertEntry es n j).2 L := by
  induction L generalizing es with
  | nil => rfl
  | cons e L ih =>
    have hne : e.1 ≠ n := h e (List.mem_cons_self e L)
    have hn' : (lookupEntry (insertEntry es e.1 e.2).2 n).isSome := by
      rw [lookup_insertEntry_other _ _ _ _ (Ne.symm hne)]
      exact hn
    rw [foldInserts_cons, ih _ hn' (fun f hf => h f (List.mem_cons_of_mem e hf)),
      foldInserts_cons]
    rw [insert_insert_comm _ _ _ _ _ hne hn]

theorem remove_foldInserts (L : List (String × TItem)) (es : List (TKey × TItem))
    (n : String) (h : ∀ e ∈ L, e.1 ≠ n) :
    (removeEntry (foldInserts es L) n).2 = foldInserts (removeEntry es n).2 L := by
  induction L generalizing es with
  | nil => rfl
  | cons e L ih =>
    have hne : e.1 ≠ n := h e (List.mem_cons_self e L)
    rw [foldInserts_cons, ih _ (fun f hf => h f (List.mem_cons_of_mem e hf)),
      foldInserts_cons, remove_insert_comm _ _ _ _ hne]

theorem savedOf_cons (es : List (TKey × TItem)) (e : String × TItem)
    (L : List (String × TItem)) :
    savedOf es (e :: L) =
      (defaultKey e.1, (lookupEntry es e.1).getD falseSentinel) :: savedOf es L := rfl

/-- The heart of the stash protocol: replaying the saved old values (or
deleting on the `false` sentinel) over the edited table restores the
original entry list exactly. -/
theorem restoreEntries_foldInserts (es : List (TKey × TItem)) (L : List (String × TItem))
    (hnodup : (L.map (fun e => e.1)).Nodup)
    (hdisp : ∀ e ∈ L, displacedOk (lookupEntry es e.1) = true) :
    restoreEntries (foldInserts es L) (savedOf es L) = .ok es := by
  induction L with
  | nil => rfl
  | cons e L ih =>
    obtain ⟨n, i⟩ := e
    rw [List.map_cons, List.nodup_cons] at hnodup
    have hLn : ∀ f ∈ L, f.1 ≠ n := by
      intro f hf hc
      exact hnodup.1 (hc ▸ List.mem_map_of_mem (fun e => e.1) hf)
    have hkey : (defaultKey n).text = n := rfl
    rw [savedOf_cons, foldInserts_cons]
    cases h : lookupEntry es n with
    | some v =>
      have hv : (isInlineTableItem v || isStrItem v) = true := by
        have := hdisp (n, i) (List.mem_cons_self _ L)
        simpa [displacedOk, h] using this
      simp only [h, Option.getD_some, restoreEntries, hkey, hv, if_true]
      have hs : (lookupEntry (insertEntry es n i).2 n).isSome := by
        rw [lookup_insertEntry_self]; rfl
      rw [insert_foldInserts L _ n v hs hLn, insert_insert_same,
        insert_present_value es n v h]
      exact ih hnodup.2 (fun f hf => hdisp f (List.mem_cons_of_mem _ hf))
    | none =>
      simp only [h, Option.getD_none, restoreEntries, hkey]
      have hfs : (isInlineTableItem falseSentinel || isStrItem falseSentinel) = false := rfl
      have hfb : isBoolItem falseSentinel = true := rfl
      simp only [hfs, Bool.false_eq_true, if_false, hfb, if_true]
      rw [remove_foldInserts L _ n hLn, remove_insert_absent es n i h]
      exact ih hnodup.2 (fun f hf => hdisp f (List.mem_cons_of_mem _ hf))

theorem savedOfS_congr (es es' : List (TKey × TItem)) (L : List (String × TItem))
    (h : ∀ e ∈ L, lookupEntry es' e.1 = lookupEntry es e.1) :
    savedOfS es' L = savedOfS es L := by
  unfold savedOfS
  exact List.map_congr_left (fun e he => by rw [h e he])

theorem insertAll_absent (L : List (String × TItem)) (es : List (TKey × TItem))
    (h : ∀ e ∈ L, lookupEntry es e.1 = none)
    (hnodup : (L.map (fun e => e.1)).Nodup) :
    insertAll es L = es ++ L.map (fun e => (defaultKey e.1, e.2)) := by
  induction L generalizing es with
  | nil => simp [insertAll]
  | cons e L ih =>
    obtain ⟨n, i⟩ := e
    rw [List.map_cons, List.nodup_cons] at hnodup
    have hx : insertAll es ((n, i) :: L) = insertAll (insertEntry es n i).2 L := rfl
    rw [hx, insert_absent es n i (h (n, i) (List.mem_cons_self _ L))]
    have h' : ∀ f ∈ L, lookupEntry (es ++ [(defaultKey n, i)]) f.1 = none := by
      intro f hf
      rw [lookup_append_of_none _ _ _ _ (h f (List.mem_cons_of_mem _ hf))]
      have hfn : f.1 ≠ n := fun hc =>
        hnodup.1 (hc ▸ List.mem_map_of_mem (fun e => e.1) hf)
      have : ((defaultKey n).text == f.1) = false := by
        rw [beq_eq_false_iff_ne]
        simpa [defaultKey] using fun hc => hfn hc.symm
      rw [this]; rfl
    rw [ih _ h' hnodup.2, List.append_assoc]
    rfl

theorem insertAll_savedOfS (es : List (TKey × TItem)) (L : List (String × TItem))
    (hnodup : (L.map (fun e => e.1)).Nodup) :
    insertAll [] (savedOfS es L) = savedOf es L := by
  have hnames : (savedOfS es L).map (fun e => e.1) = L.map (fun e => e.1) := by
    simp [savedOfS]
  have hnd : ((savedOfS es L).map (fun e => e.1)).Nodup := by
    rw [hnames]; exact hnodup
  rw [insertAll_absent (savedOfS es L) [] (fun e he => rfl) hnd, List.nil_append]
  unfold savedOfS savedOf
  rw [List.map_map]
  rfl

theorem insertEntry_fst (es : List (TKey × TItem)) (n : String) (it : TItem) :
    (insertEntry es n it).1 = lookupEntry es n := by
  induction es with
  | nil => rfl
  | cons e rest ih =>
    obtain ⟨k, old⟩ := e
    by_cases hk : k.text == n
    · simp [insertEntry, lookupEntry, List.find?, hk]
    · simp [insertEntry, lookupEntry, List.find?, hk]
      simpa [lookupEntry] using ih

theorem atPath_cons_present {α : Type} (f : TTable → Except String (α × TTable))
    (t : TTable) (name : String) (rest seen : List String) (sub : TTable) (a : α)
    (sub' : TTable) (h : lookupEntry t.entries name = some (.table sub))
    (hrec : atPath f (sub.withImplicit true) rest (seen ++ [name]) = .ok (a, sub')) :
    atPath f t (name :: rest) seen =
      .ok (a, t.withEntries (insertEntry t.entries name (.table sub')).2) := by
  simp only [atPath, h]
  rw [hrec]

theorem atPath_cons_absent {α : Type} (f : TTable → Except String (α × TTable))
    (t : TTable) (name : String) (rest seen : List String) (a : α)
    (sub' : TTable) (h : lookupEntry t.entries name = none)
    (hrec : atPath f freshImplicitTable rest (seen ++ [name]) = .ok (a, sub')) :
    atPath f t (name :: rest) seen =
      .ok (a, t.withEntries (t.entries ++ [(defaultKey name, .table sub')])) := by
  simp only [atPath, h]
  rw [hrec]

theorem hackedTable_cons (t : TTable) (n : String) (it : TItem)
    (L : List (String × TItem)) :
    hackedTable t ((n, it) :: L) =
      hackedTable ((t.withImplicit true).withEntries (insertEntry t.entries n it).2) L := by
  obtain ⟨p, s, b, q, es⟩ := t
  cases L <;> rfl

theorem hackedTable_entries (t : TTable) (L : List (String × TItem)) :
    (hackedTable t L).entries = foldInserts t.entries L := by
  obtain ⟨p, s, b, q, es⟩ := t
  cases L <;> rfl

theorem hackedTable_pre (t : TTable) (L : List (String × TItem)) :
    (hackedTable t L).pre = t.pre := by
  obtain ⟨p, s, b, q, es⟩ := t
  cases L <;> rfl

theorem changeItems_cons_norm_t (c : ChangePackage) (rest : List ChangePackage)
    (h : c.ty = .norm) :
    changeItems (c :: rest) true =
      (compiledNameOf c, compiledItemOf c) :: changeItems rest true := by
  simp [changeItems, h, isNorm]

theorem changeItems_cons_norm_f (c : ChangePackage) (rest : List ChangePackage)
    (h : c.ty = .norm) :
    changeItems (c :: rest) false = changeItems rest false := by
  simp [changeItems, h, isNorm]

theorem changeItems_cons_dev_t (c : ChangePackage) (rest : List ChangePackage)
    (h : c.ty = .dev) :
    changeItems (c :: rest) false =
      (compiledNameOf c, compiledItemOf c) :: changeItems rest false := by
  simp [changeItems, h, isNorm]

theorem changeItems_cons_dev_f (c : ChangePackage) (rest : List ChangePackage)
    (h : c.ty = .dev) :
    changeItems (c :: rest) true = changeItems rest true := by
  simp [changeItems, h, isNorm]

theorem depDevNe : "dev-dependencies" ≠ "dependencies" := by decide

theorem savedOfS_cons (es : List (TKey × TItem)) (e : String × TItem)
    (L : List (String × TItem)) :
    savedOfS es (e :: L) =
      (e.1, (lookupEntry es e.1).getD falseSentinel) :: savedOfS es L := rfl

/-- Effect of the change-application loop on a document that has both
dependency tables: each table receives its compiled items by in-place
insertion (and is marked implicit if touched), and the loop records,
per table, the displaced old values keyed by compiled name. -/
theorem applyChanges_spec (changes : List ChangePackage) :
    ∀ (p s : Option String) (im : Bool) (q : Option Nat) (E : List (TKey × TItem))
    (TN TD : TTable)
    (hN : lookupEntry E "dependencies" = some (.table TN))
    (hD : lookupEntry E "dev-dependencies" = some (.table TD))
    (hcomp : ∀ c ∈ changes, (compileChangePackage c).isOk = true)
    (hnodN : ((changeItems changes true).map (fun e => e.1)).Nodup)
    (hnodD : ((changeItems changes false).map (fun e => e.1)).Nodup),
    applyChanges (.mk p s im q E) changes =
      .ok (.mk p s im q
        (insertEntry
          (insertEntry E "dependencies"
            (.table (hackedTable TN (changeItems changes true)))).2
          "dev-dependencies" (.table (hackedTable TD (changeItems changes false)))).2,
        savedOfS TN.entries (changeItems changes true),
        savedOfS TD.entries (changeItems changes false)) := by
  induction changes with
  | nil =>
    intro p s im q E TN TD hN hD hcomp hnodN hnodD
    have h1 : (insertEntry E "dependencies" (.table TN)).2 = E :=
      insert_present_value E "dependencies" _ hN
    show applyChanges (.mk p s im q E) [] = _
    rw [applyChanges]
    simp only [changeItems, List.filter_nil, List.map_nil, hackedTable, savedOfS]
    rw [h1, insert_present_value E "dev-dependencies" _ hD]
  | cons c rest ih =>
    intro p s im q E TN TD hN hD hcomp hnodN hnodD
    have hc := hcomp c (List.mem_cons_self c rest)
    cases hcc : compileChangePackage c with
    | error e => rw [hcc] at hc; simp [Except.isOk, Except.toBool] at hc
    | ok pr =>
      obtain ⟨item, name⟩ := pr
      have hname : compiledNameOf c = name := by
        unfold compiledNameOf; rw [hcc]
      have hitem : compiledItemOf c = item := by
        unfold compiledItemOf; rw [hcc]
      cases hty : c.ty with
      | norm =>
        have htn : c.ty.tableName = "dependencies" := by rw [hty]; rfl
        -- the mutation applied at the dependencies table
        have hf : atPath (fun tb =>
            let (old, es) := insertEntry tb.entries name item
            (.ok ((name, old.getD falseSentinel), tb.withEntries es) :
              Except String ((String × TItem) × TTable)))
            (TN.withImplicit true) [] ([] ++ ["dependencies"]) =
            .ok ((name, (lookupEntry TN.entries name).getD falseSentinel),
              (TN.withImplicit true).withEntries (insertEntry TN.entries name item).2) := by
          show (let (old, es) := insertEntry (TN.withImplicit true).entries name item
            (.ok ((name, old.getD falseSentinel),
              (TN.withImplicit true).withEntries es) :
              Except String ((String × TItem) × TTable))) = _
          rw [entries_withImplicit]
          cases hie : insertEntry TN.entries name item with
          | mk old es =>
            rw [← insertEntry_fst TN.entries name item, hie]
        have hat := atPath_cons_present _ (.mk p s im q E) "dependencies" [] [] TN
          _ _ hN hf
        simp only [applyChanges, hcc, exc_bind_ok, htn]
        rw [hat]
        simp only [exc_bind_ok]
        set TN' : TTable :=
          (TN.withImplicit true).withEntries (insertEntry TN.entries name item).2 with hTN'
        have hentE : (TTable.mk p s im q E).withEntries
            (insertEntry (TTable.mk p s im q E).entries "dependencies" (.table TN')).2 =
            .mk p s im q (insertEntry E "dependencies" (.table TN')).2 := rfl
        rw [hentE]
        -- recursive call on the updated document
        have hN' : lookupEntry (insertEntry E "dependencies" (.table TN')).2
            "dependencies" = some (.table TN') := lookup_insertEntry_self _ _ _
        have hD' : lookupEntry (insertEntry E "dependencies" (.table TN')).2
            "dev-dependencies" = some (.table TD) := by
          rw [lookup_insertEntry_other _ _ _ _ depDevNe]; exact hD
        have hno : ((changeItems rest true).map (fun e => e.1)).Nodup ∧
            name ∉ (changeItems rest true).map (fun e => e.1) := by
          rw [changeItems_cons_norm_t c rest hty, hname] at hnodN
          rw [List.map_cons, List.nodup_cons] at hnodN
          exact ⟨hnodN.2, hnodN.1⟩
        have hnodD' : ((changeItems rest false).map (fun e => e.1)).Nodup := by
          rwa [changeItems_cons_norm_f c rest hty] at hnodD
        rw [ih p s im q _ TN' TD hN' hD'
          (fun d hd => hcomp d (List.mem_cons_of_mem c hd)) hno.1 hnodD']
        simp only [exc_bind_ok, hty, exc_pure]
        -- reconcile the nested inserts with the single-pass description
        rw [changeItems_cons_norm_t c rest hty, changeItems_cons_norm_f c rest hty,
          hname, hitem]
        rw [insert_insert_same, hackedTable_cons]
        have hsave : savedOfS TN'.entries (changeItems rest true) =
            savedOfS TN.entries (changeItems rest true) := by
          apply savedOfS_congr
          intro e he
          have hen : e.1 ≠ name := by
            intro hc2
            exact hno.2 (hc2 ▸ List.mem_map_of_mem (fun e => e.1) he)
          rw [hTN', entries_withEntries, lookup_insertEntry_other _ _ _ _ hen]
        rw [hsave, savedOfS_cons, ← hTN']
      | dev =>
        have htn : c.ty.tableName = "dev-dependencies" := by rw [hty]; rfl
        have hf : atPath (fun tb =>
            let (old, es) := insertEntry tb.entries name item
            (.ok ((name, old.getD falseSentinel), tb.withEntries es) :
              Except String ((String × TItem) × TTable)))
            (TD.withImplicit true) [] ([] ++ ["dev-dependencies"]) =
            .ok ((name, (lookupEntry TD.entries name).getD falseSentinel),
              (TD.withImplicit true).withEntries (insertEntry TD.entries name item).2) := by
          show (let (old, es) := insertEntry (TD.withImplicit true).entries name item
            (.ok ((name, old.getD falseSentinel),
              (TD.withImplicit true).withEntries es) :
              Except String ((String × TItem) × TTable))) = _
          rw [entries_withImplicit]
          cases hie : insertEntry TD.entries name item with
          | mk old es =>
            rw [← insertEntry_fst TD.entries name item, hie]
        have hat := atPath_cons_present _ (.mk p s im q E) "dev-dependencies" [] [] TD
          _ _ hD hf
        simp only [applyChanges, hcc, exc_bind_ok, htn]
        rw [hat]
        simp only [exc_bind_ok]
        set TD' : TTable :=
          (TD.withImplicit true).withEntries (insertEntry TD.entries name item).2 with hTD'
        have hentE : (TTable.mk p s im q E).withEntries
            (insertEntry (TTable.mk p s im q E).entries "dev-dependencies" (.table TD')).2 =
            .mk p s im q (insertEntry E "dev-dependencies" (.table TD')).2 := rfl
        rw [hentE]
        have hD' : lookupEntry (insertEntry E "dev-dependencies" (.table TD')).2
            "dev-dependencies" = some (.table TD') := lookup_insertEntry_self _ _ _
        have hN' : lookupEntry (insertEntry E "dev-dependencies" (.table TD')).2
            "dependencies" = some (.table TN) := by
          rw [lookup_insertEntry_other _ _ _ _ (Ne.symm depDevNe)]; exact hN
        have hno : ((changeItems rest false).map (fun e => e.1)).Nodup ∧
            name ∉ (changeItems rest false).map (fun e => e.1) := by
          rw [changeItems_cons_dev_t c rest hty, hname] at hnodD
          rw [List.map_cons, List.nodup_cons] at hnodD
          exact ⟨hnodD.2, hnodD.1⟩
        have hnodN' : ((changeItems rest true).map (fun e => e.1)).Nodup := by
          rwa [changeItems_cons_dev_f c rest hty] at hnodN
        rw [ih p s im q _ TN TD' hN' hD'
          (fun d hd => hcomp d (List.mem_cons_of_mem c hd)) hnodN' hno.1]
        simp only [exc_bind_ok, hty, exc_pure]
        rw [changeItems_cons_dev_t c rest hty, changeItems_cons_dev_f c rest hty,
          hname, hitem]
        have hcomm : (insertEntry
            (insertEntry E "dev-dependencies" (.table TD')).2
            "dependencies" (.table (hackedTable TN (changeItems rest true)))).2 =
            (insertEntry
              (insertEntry E "dependencies"
                (.table (hackedTable TN (changeItems rest true)))).2
              "dev-dependencies" (.table TD')).2 := by
          apply insert_insert_comm
          · exact depDevNe
          · rw [hN]; rfl
        rw [hcomm, insert_insert_same, hackedTable_cons]
        have hsave : savedOfS TD'.entries (changeItems rest false) =
            savedOfS TD.entries (changeItems rest false) := by
          apply savedOfS_congr
          intro e he
          have hen : e.1 ≠ name := by
            intro hc2
            exact hno.2 (hc2 ▸ List.mem_map_of_mem (fun e => e.1) he)
          rw [hTD', entries_withEntries, lookup_insertEntry_other _ _ _ _ hen]
        rw [hsave, savedOfS_cons, ← hTD']

theorem pkgNeDep : "package" ≠ "dependencies" := by decide

theorem pkgNeDev : "package" ≠ "dev-dependencies" := by decide

theorem implImplEntries (t : TTable) (X : List (TKey × TItem)) :
    ((t.withImplicit true).withEntries X).withImplicit true =
      (t.withImplicit true).withEntries X := by
  rw [withImplicit_withEntries, withImplicit_withImplicit]

/-- Full effect of a no-lock `set_dependencies_toml` on a manifest that
carries both dependency tables and the whole metadata chain (with no
pre-existing stash): compiled items are inserted into the dependency
tables and the displaced values are stashed under
`package.metadata.hackerman.stash`. -/
theorem setDependenciesToml_spec (changes : List ChangePackage) (p s : Option String)
    (im : Bool) (q : Option Nat) (E : List (TKey × TItem)) (TN TD TP TM TH : TTable)
    (hT : lookupEntry E "target" = none)
    (hN : lookupEntry E "dependencies" = some (.table TN))
    (hD : lookupEntry E "dev-dependencies" = some (.table TD))
    (hP : lookupEntry E "package" = some (.table TP))
    (hM : lookupEntry TP.entries "metadata" = some (.table TM))
    (hH : lookupEntry TM.entries "hackerman" = some (.table TH))
    (hS : lookupEntry TH.entries "stash" = none)
    (hcomp : ∀ c ∈ changes, (compileChangePackage c).isOk = true)
    (hnodN : ((changeItems changes true).map (fun e => e.1)).Nodup)
    (hnodD : ((changeItems changes false).map (fun e => e.1)).Nodup) :
    setDependenciesToml (.mk p s im q E) false changes =
      .ok (false, .mk p s im q
        (insertEntry
          (insertEntry
            (insertEntry E "dependencies"
              (.table (hackedTable TN (changeItems changes true)))).2
            "dev-dependencies" (.table (hackedTable TD (changeItems changes false)))).2
          "package" (.table (hackChain TP TM TH
            (savedOf TN.entries (changeItems changes true))
            (savedOf TD.entries (changeItems changes false))))).2) := by
  have hck : containsKey (.mk p s im q E) "target" = false := by
    unfold containsKey
    rw [show (TTable.mk p s im q E).entries = E from rfl, hT]
    rfl
  unfold setDependenciesToml
  rw [hck]
  simp only [Bool.false_eq_true, if_false]
  rw [applyChanges_spec changes p s im q E TN TD hN hD hcomp hnodN hnodD]
  simp only [exc_bind_ok, exc_pure]
  set LN : List (String × TItem) := changeItems changes true with hLN
  set LD : List (String × TItem) := changeItems changes false with hLD
  set snn : List (TKey × TItem) := savedOf TN.entries LN with hsnn
  set sdd : List (TKey × TItem) := savedOf TD.entries LD with hsdd
  set E1 : List (TKey × TItem) :=
    (insertEntry
      (insertEntry E "dependencies" (.table (hackedTable TN LN))).2
      "dev-dependencies" (.table (hackedTable TD LD))).2 with hE1
  -- lookups in the post-change top level
  have hPE1 : lookupEntry E1 "package" = some (.table TP) := by
    rw [hE1, lookup_insertEntry_other _ _ _ _ pkgNeDev,
      lookup_insertEntry_other _ _ _ _ pkgNeDep]
    exact hP
  -- the first stash write (normal dependencies)
  set f1 : TTable → Except String (Unit × TTable) := fun tb =>
    .ok ((), (tb.withPos (some 998)).withEntries (insertAll tb.entries (savedOfS TN.entries LN))) with hf1
  set sdN : TTable := .mk none none true (some 998) snn with hsdN
  set stash1 : TTable := .mk none none true none
    [(defaultKey "dependencies", .table sdN)] with hstash1
  set TH1 : TTable := (TH.withImplicit true).withEntries
    (TH.entries ++ [(defaultKey "stash", .table stash1)]) with hTH1
  set TM1 : TTable := (TM.withImplicit true).withEntries
    (insertEntry TM.entries "hackerman" (.table TH1)).2 with hTM1
  set TP1 : TTable := (TP.withImplicit true).withEntries
    (insertEntry TP.entries "metadata" (.table TM1)).2 with hTP1
  have e5 : atPath f1 freshImplicitTable []
      ["package", "metadata", "hackerman", "stash", "dependencies"] = .ok ((), sdN) := by
    show Except.ok ((), (freshImplicitTable.withPos (some 998)).withEntries
      (insertAll freshImplicitTable.entries (savedOfS TN.entries LN))) = _
    rw [show freshImplicitTable.entries = ([] : List (TKey × TItem)) from rfl,
      insertAll_savedOfS TN.entries LN hnodN, hsdN, hsnn]
    rfl
  have e4 : atPath f1 freshImplicitTable ["dependencies"]
      ["package", "metadata", "hackerman", "stash"] = .ok ((), stash1) := by
    rw [atPath_cons_absent f1 freshImplicitTable "dependencies" [] _ () sdN rfl e5]
    rfl
  have e3 : atPath f1 (TH.withImplicit true) ["stash", "dependencies"]
      ["package", "metadata", "hackerman"] = .ok ((), TH1) := by
    have h : lookupEntry (TH.withImplicit true).entries "stash" = none := by
      rw [entries_withImplicit]; exact hS
    rw [atPath_cons_absent f1 (TH.withImplicit true) "stash" ["dependencies"] _ () stash1 h e4]
    rw [entries_withImplicit]
  have e2 : atPath f1 (TM.withImplicit true) ["hackerman", "stash", "dependencies"]
      ["package", "metadata"] = .ok ((), TM1) := by
    have h : lookupEntry (TM.withImplicit true).entries "hackerman" = some (.table TH) := by
      rw [entries_withImplicit]; exact hH
    rw [atPath_cons_present f1 (TM.withImplicit true) "hackerman" _ _ TH () TH1 h e3]
    rw [entries_withImplicit]
  have e1 : atPath f1 (TP.withImplicit true) ["metadata", "hackerman", "stash", "dependencies"]
      ["package"] = .ok ((), TP1) := by
    have h : lookupEntry (TP.withImplicit true).entries "metadata" = some (.table TM) := by
      rw [entries_withImplicit]; exact hM
    rw [atPath_cons_present f1 (TP.withImplicit true) "metadata" _ _ TM () TM1 h e2]
    rw [entries_withImplicit]
  have e0 : atPath f1 (.mk p s im q E1) normStashPath [] =
      .ok ((), .mk p s im q (insertEntry E1 "package" (.table TP1)).2) := by
    rw [show normStashPath =
      "package" :: ["metadata", "hackerman", "stash", "dependencies"] from rfl]
    rw [atPath_cons_present f1 (.mk p s im q E1) "package" _ _ TP () TP1 hPE1 e1]
    rfl
  rw [e0]
  simp only [exc_bind_ok, exc_pure]
  -- the second stash write (dev dependencies)
  set E2 : List (TKey × TItem) := (insertEntry E1 "package" (.table TP1)).2 with hE2
  set f2 : TTable → Except String (Unit × TTable) := fun tb =>
    .ok ((), (tb.withPos (some 999)).withEntries (insertAll tb.entries (savedOfS TD.entries LD))) with hf2
  set sdD : TTable := .mk none none true (some 999) sdd with hsdD
  set stash2 : TTable := stashBoth snn sdd with hstash2
  set TH2 : TTable := (TH.withImplicit true).withEntries
    (TH.entries ++ [(defaultKey "stash", .table stash2)]) with hTH2
  set TM2 : TTable := (TM.withImplicit true).withEntries
    (insertEntry TM.entries "hackerman" (.table TH2)).2 with hTM2
  set TP2 : TTable := (TP.withImplicit true).withEntries
    (insertEntry TP.entries "metadata" (.table TM2)).2 with hTP2
  have d5 : atPath f2 freshImplicitTable []
      ["package", "metadata", "hackerman", "stash", "dev-dependencies"] = .ok ((), sdD) := by
    show Except.ok ((), (freshImplicitTable.withPos (some 999)).withEntries
      (insertAll freshImplicitTable.entries (savedOfS TD.entries LD))) = _
    rw [show freshImplicitTable.entries = ([] : List (TKey × TItem)) from rfl,
      insertAll_savedOfS TD.entries LD hnodD, hsdD, hsdd]
    rfl
  have d4 : atPath f2 (stash1.withImplicit true) ["dev-dependencies"]
      ["package", "metadata", "hackerman", "stash"] = .ok ((), stash2) := by
    have h : lookupEntry (stash1.withImplicit true).entries "dev-dependencies" = none := by
      rw [hstash1]; rfl
    rw [atPath_cons_absent f2 (stash1.withImplicit true) "dev-dependencies" [] _ () sdD h d5]
    rw [hstash1, hstash2]
    rfl
  have d3 : atPath f2 (TH1.withImplicit true) ["stash", "dev-dependencies"]
      ["package", "metadata", "hackerman"] = .ok ((), TH2) := by
    have h : lookupEntry (TH1.withImplicit true).entries "stash" = some (.table stash1) := by
      rw [hTH1, implImplEntries, entries_withEntries,
        lookup_append_of_none _ _ _ _ hS]
      rfl
    rw [atPath_cons_present f2 (TH1.withImplicit true) "stash" _ _ stash1 () stash2 h d4]
    rw [hTH1, implImplEntries, entries_withEntries,
      insert_append_self _ _ _ _ _ hS rfl, withEntries_withEntries, hTH2]
  have d2 : atPath f2 (TM1.withImplicit true) ["hackerman", "stash", "dev-dependencies"]
      ["package", "metadata"] = .ok ((), TM2) := by
    have h : lookupEntry (TM1.withImplicit true).entries "hackerman" = some (.table TH1) := by
      rw [hTM1, implImplEntries, entries_withEntries]
      exact lookup_insertEntry_self _ _ _
    rw [atPath_cons_present f2 (TM1.withImplicit true) "hackerman" _ _ TH1 () TH2 h d3]
    rw [hTM1, implImplEntries, entries_withEntries, insert_insert_same,
      withEntries_withEntries, hTM2]
  have d1 : atPath f2 (TP1.withImplicit true)
      ["metadata", "hackerman", "stash", "dev-dependencies"] ["package"] = .ok ((), TP2) := by
    have h : lookupEntry (TP1.withImplicit true).entries "metadata" = some (.table TM1) := by
      rw [hTP1, implImplEntries, entries_withEntries]
      exact lookup_insertEntry_self _ _ _
    rw [atPath_cons_present f2 (TP1.withImplicit true) "metadata" _ _ TM1 () TM2 h d2]
    rw [hTP1, implImplEntries, entries_withEntries, insert_insert_same,
      withEntries_withEntries, hTP2]
  have d0 : atPath f2 (.mk p s im q E2) devStashPath [] =
      .ok ((), .mk p s im q (insertEntry E1 "package" (.table TP2)).2) := by
    rw [show devStashPath =
      "package" :: ["metadata", "hackerman", "stash", "dev-dependencies"] from rfl]
    have h : lookupEntry E2 "package" = some (.table TP1) := by
      rw [hE2]; exact lookup_insertEntry_self _ _ _
    rw [atPath_cons_present f2 (.mk p s im q E2) "package" _ _ TP1 () TP2 h d1]
    rw [show (TTable.mk p s im q E2).withEntries
      (insertEntry (TTable.mk p s im q E2).entries "package" (.table TP2)).2 =
      .mk p s im q (insertEntry E2 "package" (.table TP2)).2 from rfl]
    rw [hE2, insert_insert_same]
  rw [d0]
  simp only [exc_bind_ok, exc_pure, Bool.false_eq_true, if_false]
  rw [hTP2, hTM2, hTH2, hstash2]
  rfl

theorem withEntries_self (t : TTable) : t.withEntries t.entries = t := by
  obtain ⟨p, s, b, q, es⟩ := t; rfl

theorem hackedTable_impl (t : TTable) (L : List (String × TItem)) :
    (hackedTable t L).withImplicit true =
      (t.withImplicit true).withEntries (foldInserts t.entries L) := by
  obtain ⟨p, s, b, q, es⟩ := t
  cases L <;> rfl

theorem hackHackT_impl (TH : TTable) (sn sd : List (TKey × TItem)) :
    (hackHackT TH sn sd).withImplicit true = hackHackT TH sn sd :=
  implImplEntries _ _

theorem hackMetaT_impl (TM TH : TTable) (sn sd : List (TKey × TItem)) :
    (hackMetaT TM TH sn sd).withImplicit true = hackMetaT TM TH sn sd :=
  implImplEntries _ _

theorem hackChain_impl (TP TM TH : TTable) (sn sd : List (TKey × TItem)) :
    (hackChain TP TM TH sn sd).withImplicit true = hackChain TP TM TH sn sd :=
  implImplEntries _ _

theorem hackHackT_entries (TH : TTable) (sn sd : List (TKey × TItem)) :
    (hackHackT TH sn sd).entries =
      TH.entries ++ [(defaultKey "stash", .table (stashBoth sn sd))] :=
  entries_withEntries _ _

theorem hackMetaT_entries (TM TH : TTable) (sn sd : List (TKey × TItem)) :
    (hackMetaT TM TH sn sd).entries =
      (insertEntry TM.entries "hackerman" (.table (hackHackT TH sn sd))).2 :=
  entries_withEntries _ _

theorem hackChain_entries (TP TM TH : TTable) (sn sd : List (TKey × TItem)) :
    (hackChain TP TM TH sn sd).entries =
      (insertEntry TP.entries "metadata" (.table (hackMetaT TM TH sn sd))).2 :=
  entries_withEntries _ _

theorem mapTableAt_of_lookup (es : List (TKey × TItem)) (n : String) (t : TTable)
    (f : TTable → TTable) (h : lookupEntry es n = some (.table t)) :
    mapTableAt es n f = (insertEntry es n (.table (f t))).2 := by
  induction es with
  | nil => simp [lookupEntry] at h
  | cons e rest ih =>
    obtain ⟨k, it⟩ := e
    by_cases hk : k.text == n
    · have hit : it = .table t := by
        simpa [lookupEntry, List.find?, hk] using h
      simp [mapTableAt, insertEntry, hk, hit]
    · have hr : lookupEntry rest n = some (.table t) := by
        simpa [lookupEntry, List.find?, hk] using h
      simp [mapTableAt, insertEntry, hk, ih hr]

theorem lookup_mapTableAt_other (es : List (TKey × TItem)) (n m : String)
    (f : TTable → TTable) (h : m ≠ n) :
    lookupEntry (mapTableAt es n f) m = lookupEntry es m := by
  induction es with
  | nil => simp [mapTableAt]
  | cons e rest ih =>
    obtain ⟨k, it⟩ := e
    by_cases hk : k.text == n
    · have hkm : (k.text == m) = false := by
        rw [beq_eq_false_iff_ne]
        intro hc
        exact h ((beq_iff_eq.1 hk) ▸ hc ▸ rfl)
      cases it <;> simp [mapTableAt, hk, lookupEntry, List.find?, hkm]
    · by_cases hm : k.text == m
      · simp [mapTableAt, hk, lookupEntry, List.find?, hm]
      · simp only [mapTableAt, hk, Bool.false_eq_true, if_false]
        simpa [lookupEntry, List.find?, hm] using ih

/-- Under the canonical chain-presence hypotheses, the round-trip
transform is a nest of in-place insertions. -/
theorem rtTransform_spec (p s : Option String) (im : Bool) (q : Option Nat)
    (E : List (TKey × TItem)) (TN TD TP TM TH : TTable)
    (hN : lookupEntry E "dependencies" = some (.table TN))
    (hD : lookupEntry E "dev-dependencies" = some (.table TD))
    (hP : lookupEntry E "package" = some (.table TP))
    (hM : lookupEntry TP.entries "metadata" = some (.table TM))
    (hH : lookupEntry TM.entries "hackerman" = some (.table TH)) :
    rtTransform (.mk p s im q E) = .mk p s im q
      (insertEntry
        (insertEntry
          (insertEntry E "dependencies" (.table (rtDepTable TN))).2
          "dev-dependencies" (.table (rtDepTable TD))).2
        "package" (.table ((TP.withImplicit true).withEntries
          (insertEntry TP.entries "metadata" (.table ((TM.withImplicit true).withEntries
            (insertEntry TM.entries "hackerman" (.table (rtHackT TH))).2))).2))).2 := by
  have h1 : lookupEntry (mapTableAt E "dependencies" rtDepTable) "dev-dependencies" =
      some (.table TD) := by
    rw [lookup_mapTableAt_other _ _ _ _ depDevNe]; exact hD
  have h2 : lookupEntry (mapTableAt (mapTableAt E "dependencies" rtDepTable)
      "dev-dependencies" rtDepTable) "package" = some (.table TP) := by
    rw [lookup_mapTableAt_other _ _ _ _ pkgNeDev,
      lookup_mapTableAt_other _ _ _ _ pkgNeDep]
    exact hP
  show (TTable.mk p s im q E).withEntries _ = _
  rw [show (TTable.mk p s im q E).entries = E from rfl]
  rw [mapTableAt_of_lookup E "dependencies" TN rtDepTable hN]
  rw [mapTableAt_of_lookup _ "dev-dependencies" TD rtDepTable]
  rw [mapTableAt_of_lookup _ "package" TP rtPkgT]
  · show _ = _
    rw [show rtPkgT TP = (TP.withImplicit true).withEntries
        (mapTableAt TP.entries "metadata" rtMetaT) from rfl]
    rw [mapTableAt_of_lookup TP.entries "metadata" TM rtMetaT hM]
    rw [show rtMetaT TM = (TM.withImplicit true).withEntries
        (mapTableAt TM.entries "hackerman" rtHackT) from rfl]
    rw [mapTableAt_of_lookup TM.entries "hackerman" TH rtHackT hH]
    rfl
  · rw [lookup_insertEntry_other _ _ _ _ pkgNeDev,
      lookup_insertEntry_other _ _ _ _ pkgNeDep]
    exact hP
  · rw [lookup_insertEntry_other _ _ _ _ depDevNe]
    exact hD

/-- `strip_banner` leaves a document alone when the first item exists
and its decor does not start with the banner. -/
theorem stripBanner_noop (t : TTable) (hg : goodFirst t.entries = true)
    (hb : strIsPrefixOf BANNER ((firstPreOf t.entries).getD "") = false) :
    stripBanner t = .ok ((firstPreOf t.entries).isSome, t) := by
  unfold stripBanner firstItemPre
  cases hes : t.entries with
  | nil => rw [hes] at hg; simp [goodFirst] at hg
  | cons e rest =>
    obtain ⟨k, it⟩ := e
    rw [hes] at hg hb
    cases it with
    | nothing => simp [goodFirst] at hg
    | value v =>
      simp only [exc_bind_ok]
      cases hv : valuePre v with
      | none => simp [firstPreOf, hv, exc_pure]
      | some cur =>
        rw [firstPreOf] at hb
        rw [hv] at hb
        simp only [Option.getD_some] at hb
        simp [hb, firstPreOf, hv, exc_pure]
    | table tb =>
      simp only [exc_bind_ok]
      cases hv : tb.pre with
      | none => simp [firstPreOf, hv, exc_pure]
      | some cur =>
        rw [firstPreOf] at hb
        rw [hv] at hb
        simp only [Option.getD_some] at hb
        simp [hb, firstPreOf, hv, exc_pure]
    | arrayOfTables ts =>
      cases ts with
      | nil => simp [goodFirst] at hg
      | cons tb ts =>
        simp only [exc_bind_ok]
        cases hv : tb.pre with
        | none => simp [firstPreOf, hv, exc_pure]
        | some cur =>
          rw [firstPreOf] at hb
          rw [hv] at hb
          simp only [Option.getD_some] at hb
          simp [hb, firstPreOf, hv, exc_pure]

/-- Replacing the table item of a present key with one that keeps its
decor prefix does not touch what the banner getter/setter sees. -/
theorem firstState_insert_table (E : List (TKey × TItem)) (n : String) (t t' : TTable)
    (h : lookupEntry E n = some (.table t)) (hpre : t'.pre = t.pre) :
    goodFirst (insertEntry E n (.table t')).2 = goodFirst E ∧
      firstPreOf (insertEntry E n (.table t')).2 = firstPreOf E := by
  induction E with
  | nil => simp [lookupEntry] at h
  | cons e rest ih =>
    obtain ⟨k, it⟩ := e
    by_cases hk : k.text == n
    · have hit : it = .table t := by
        simpa [lookupEntry, List.find?, hk] using h
      subst hit
      simp only [insertEntry, hk, if_true]
      constructor
      · rfl
      · show firstPreOf _ = _
        simp [firstPreOf, hpre]
    · have hr : lookupEntry rest n = some (.table t) := by
        simpa [lookupEntry, List.find?, hk] using h
      simp only [insertEntry, hk, Bool.false_eq_true, if_false]
      cases rest with
      | nil => simp [lookupEntry] at hr
      | cons f rest2 =>
        constructor
        · rfl
        · rfl

theorem hackChain_pre (TP TM TH : TTable) (sn sd : List (TKey × TItem)) :
    (hackChain TP TM TH sn sd).pre = TP.pre := by
  rw [hackChain, pre_withEntries, pre_withImplicit]

theorem rtDepTable_pre (t : TTable) : (rtDepTable t).pre = t.pre := by
  rw [rtDepTable, pre_withEntries, pre_withImplicit]

/-- Restoring right after a no-lock edit rebuilds exactly the
round-trip transform of the original document: dependency tables
sorted and marked implicit, chain marked implicit, stash emptied. -/
theorem restoreToml_after_hack (p s : Option String) (im : Bool) (q : Option Nat)
    (E : List (TKey × TItem)) (TN TD TP TM TH : TTable)
    (LN LD : List (String × TItem))
    (hN : lookupEntry E "dependencies" = some (.table TN))
    (hD : lookupEntry E "dev-dependencies" = some (.table TD))
    (hP : lookupEntry E "package" = some (.table TP))
    (hM : lookupEntry TP.entries "metadata" = some (.table TM))
    (hH : lookupEntry TM.entries "hackerman" = some (.table TH))
    (hS : lookupEntry TH.entries "stash" = none)
    (hL : lookupEntry TH.entries "lock" = none)
    (hnodN : (LN.map (fun e => e.1)).Nodup)
    (hnodD : (LD.map (fun e => e.1)).Nodup)
    (hdN : ∀ e ∈ LN, displacedOk (lookupEntry TN.entries e.1) = true)
    (hdD : ∀ e ∈ LD, displacedOk (lookupEntry TD.entries e.1) = true)
    (hgood : goodFirst E = true)
    (hban : strIsPrefixOf BANNER ((firstPreOf E).getD "") = false) :
    Except.map (fun r => r.2) (restoreToml (.mk p s im q
      (insertEntry
        (insertEntry
          (insertEntry E "dependencies" (.table (hackedTable TN LN))).2
          "dev-dependencies" (.table (hackedTable TD LD))).2
        "package" (.table (hackChain TP TM TH
          (savedOf TN.entries LN) (savedOf TD.entries LD)))).2)) =
      .ok (rtTransform (.mk p s im q E)) := by
  set snv : List (TKey × TItem) := savedOf TN.entries LN with hsnv
  set sdv : List (TKey × TItem) := savedOf TD.entries LD with hsdv
  set HN : TTable := hackedTable TN LN with hHN
  set HD : TTable := hackedTable TD LD with hHD
  set E1 : List (TKey × TItem) :=
    (insertEntry (insertEntry E "dependencies" (.table HN)).2
      "dev-dependencies" (.table HD)).2 with hE1
  set HC : TTable := hackChain TP TM TH snv sdv with hHC
  set E3 : List (TKey × TItem) := (insertEntry E1 "package" (.table HC)).2 with hE3
  -- basic lookups in the hacked top level
  have lk1 : lookupEntry E1 "dependencies" = some (.table HN) := by
    rw [hE1, lookup_insertEntry_other _ _ _ _ (Ne.symm depDevNe)]
    exact lookup_insertEntry_self _ _ _
  have lk2 : lookupEntry E1 "dev-dependencies" = some (.table HD) := by
    rw [hE1]; exact lookup_insertEntry_self _ _ _
  have lk3 : lookupEntry E3 "package" = some (.table HC) := by
    rw [hE3]; exact lookup_insertEntry_self _ _ _
  have lk4 : lookupEntry E3 "dependencies" = some (.table HN) := by
    rw [hE3, lookup_insertEntry_other _ _ _ _ (Ne.symm pkgNeDep)]
    exact lk1
  -- phase A: removing the (absent) lock leaves the document unchanged
  set g1 : TTable → Except String (Option TItem × TTable) := fun tb =>
    let (old, es) := removeEntry tb.entries "lock"
    .ok (old, tb.withEntries es) with hg1
  have a3 : atPath g1 ((hackHackT TH snv sdv).withImplicit true) []
      ["package", "metadata", "hackerman"] = .ok (none, hackHackT TH snv sdv) := by
    rw [hackHackT_impl]
    show (let (old, es) := removeEntry (hackHackT TH snv sdv).entries "lock"
      (Except.ok (old, (hackHackT TH snv sdv).withEntries es) :
        Except String (Option TItem × TTable))) = _
    rw [hackHackT_entries]
    have hlk : lookupEntry
        (TH.entries ++ [(defaultKey "stash", .table (stashBoth snv sdv))]) "lock" = none := by
      rw [lookup_append_of_none _ _ _ _ hL]; rfl
    rw [removeEntry_not_found _ _ hlk]
    show Except.ok ((none : Option TItem), (hackHackT TH snv sdv).withEntries
      (TH.entries ++ [(defaultKey "stash", .table (stashBoth snv sdv))])) = _
    rw [← hackHackT_entries TH snv sdv, withEntries_self]
  have a2 : atPath g1 ((hackMetaT TM TH snv sdv).withImplicit true) ["hackerman"]
      ["package", "metadata"] = .ok (none, hackMetaT TM TH snv sdv) := by
    rw [hackMetaT_impl]
    have h : lookupEntry (hackMetaT TM TH snv sdv).entries "hackerman" =
        some (.table (hackHackT TH snv sdv)) := by
      rw [hackMetaT_entries]; exact lookup_insertEntry_self _ _ _
    rw [atPath_cons_present g1 (hackMetaT TM TH snv sdv) "hackerman" [] _
      (hackHackT TH snv sdv) none (hackHackT TH snv sdv) h a3]
    rw [hackMetaT_entries, insert_insert_same, ← hackMetaT_entries, withEntries_self]
  have a1 : atPath g1 ((hackChain TP TM TH snv sdv).withImplicit true)
      ["metadata", "hackerman"] ["package"] = .ok (none, hackChain TP TM TH snv sdv) := by
    rw [hackChain_impl]
    have h : lookupEntry (hackChain TP TM TH snv sdv).entries "metadata" =
        some (.table (hackMetaT TM TH snv sdv)) := by
      rw [hackChain_entries]; exact lookup_insertEntry_self _ _ _
    rw [atPath_cons_present g1 (hackChain TP TM TH snv sdv) "metadata" _ _
      (hackMetaT TM TH snv sdv) none (hackMetaT TM TH snv sdv) h a2]
    rw [hackChain_entries, insert_insert_same, ← hackChain_entries, withEntries_self]
  have a0 : atPath g1 (.mk p s im q E3) hackermanPath [] =
      .ok (none, .mk p s im q E3) := by
    rw [show hackermanPath = "package" :: ["metadata", "hackerman"] from rfl]
    rw [atPath_cons_present g1 (.mk p s im q E3) "package" _ _ HC none HC lk3 (hHC ▸ a1)]
    rw [show (TTable.mk p s im q E3).withEntries
      (insertEntry (TTable.mk p s im q E3).entries "package" (.table HC)).2 =
      .mk p s im q (insertEntry E3 "package" (.table HC)).2 from rfl]
    rw [hE3, insert_insert_same]
  -- phase B: pull the saved dependencies out of the stash
  set stashB : TTable := .mk none none true none
    [(defaultKey "dev-dependencies", .table (.mk none none true (some 999) sdv))] with hstashB
  set HH2 : TTable := (TH.withImplicit true).withEntries
    (TH.entries ++ [(defaultKey "stash", .table stashB)]) with hHH2
  set MB : TTable := (TM.withImplicit true).withEntries
    (insertEntry TM.entries "hackerman" (.table HH2)).2 with hMB
  set PB : TTable := (TP.withImplicit true).withEntries
    (insertEntry TP.entries "metadata" (.table MB)).2 with hPB
  set g2 : TTable → Except String (Option TItem × TTable) := fun tb =>
    let (old, es) := removeEntry tb.entries "dependencies"
    .ok (old, tb.withEntries es) with hg2
  have b4 : atPath g2 ((stashBoth snv sdv).withImplicit true) []
      ["package", "metadata", "hackerman", "stash"] =
      .ok (some (.table (.mk none none true (some 998) snv)), stashB) := rfl
  have b3 : atPath g2 ((hackHackT TH snv sdv).withImplicit true) ["stash"]
      ["package", "metadata", "hackerman"] =
      .ok (some (.table (.mk none none true (some 998) snv)), HH2) := by
    rw [hackHackT_impl]
    have h : lookupEntry (hackHackT TH snv sdv).entries "stash" =
        some (.table (stashBoth snv sdv)) := by
      rw [hackHackT_entries, lookup_append_of_none _ _ _ _ hS]; rfl
    rw [atPath_cons_present g2 (hackHackT TH snv sdv) "stash" [] _
      (stashBoth snv sdv) _ stashB h b4]
    rw [hackHackT_entries, insert_append_self _ _ _ _ _ hS rfl]
    rw [show hackHackT TH snv sdv = (TH.withImplicit true).withEntries
      (TH.entries ++ [(defaultKey "stash", .table (stashBoth snv sdv))]) from rfl]
    rw [withEntries_withEntries, hHH2]
  have b2 : atPath g2 ((hackMetaT TM TH snv sdv).withImplicit true) ["hackerman", "stash"]
      ["package", "metadata"] =
      .ok (some (.table (.mk none none true (some 998) snv)), MB) := by
    rw [hackMetaT_impl]
    have h : lookupEntry (hackMetaT TM TH snv sdv).entries "hackerman" =
        some (.table (hackHackT TH snv sdv)) := by
      rw [hackMetaT_entries]; exact lookup_insertEntry_self _ _ _
    rw [atPath_cons_present g2 (hackMetaT TM TH snv sdv) "hackerman" _ _
      (hackHackT TH snv sdv) _ HH2 h b3]
    rw [hackMetaT_entries, insert_insert_same]
    rw [show hackMetaT TM TH snv sdv = (TM.withImplicit true).withEntries
      (insertEntry TM.entries "hackerman" (.table (hackHackT TH snv sdv))).2 from rfl]
    rw [withEntries_withEntries, hMB]
  have b1 : atPath g2 ((hackChain TP TM TH snv sdv).withImplicit true)
      ["metadata", "hackerman", "stash"] ["package"] =
      .ok (some (.table (.mk none none true (some 998) snv)), PB) := by
    rw [hackChain_impl]
    have h : lookupEntry (hackChain TP TM TH snv sdv).entries "metadata" =
        some (.table (hackMetaT TM TH snv sdv)) := by
      rw [hackChain_entries]; exact lookup_insertEntry_self _ _ _
    rw [atPath_cons_present g2 (hackChain TP TM TH snv sdv) "metadata" _ _
      (hackMetaT TM TH snv sdv) _ MB h b2]
    rw [hackChain_entries, insert_insert_same]
    rw [show hackChain TP TM TH snv sdv = (TP.withImplicit true).withEntries
      (insertEntry TP.entries "metadata" (.table (hackMetaT TM TH snv sdv))).2 from rfl]
    rw [withEntries_withEntries, hPB]
  have b0 : atPath g2 (.mk p s im q E3) stashPath [] =
      .ok (some (.table (.mk none none true (some 998) snv)),
        .mk p s im q (insertEntry E1 "package" (.table PB)).2) := by
    rw [show stashPath = "package" :: ["metadata", "hackerman", "stash"] from rfl]
    rw [atPath_cons_present g2 (.mk p s im q E3) "package" _ _ HC _ PB lk3 (hHC ▸ b1)]
    rw [show (TTable.mk p s im q E3).withEntries
      (insertEntry (TTable.mk p s im q E3).entries "package" (.table PB)).2 =
      .mk p s im q (insertEntry E3 "package" (.table PB)).2 from rfl]
    rw [hE3, insert_insert_same]
  -- the live dependencies table gets its old entries back, sorted
  set E4 : List (TKey × TItem) := (insertEntry E1 "package" (.table PB)).2 with hE4
  set g3 : TTable → Except String (Unit × TTable) := fun tb => do
    let es ← restoreEntries tb.entries
      (TTable.mk none none true (some 998) snv).entries
    .ok ((), tb.withEntries (sortEntries es)) with hg3
  have c1 : atPath g3 ((hackedTable TN LN).withImplicit true) [] ["dependencies"] =
      .ok ((), rtDepTable TN) := by
    rw [hackedTable_impl]
    show (do
      let es ← restoreEntries
        ((TN.withImplicit true).withEntries (foldInserts TN.entries LN)).entries
        (TTable.mk none none true (some 998) snv).entries
      (Except.ok ((), ((TN.withImplicit true).withEntries
        (foldInserts TN.entries LN)).withEntries (sortEntries es)) :
        Except String (Unit × TTable))) = _
    rw [entries_withEntries,
      show (TTable.mk (none : Option String) none true (some 998) snv).entries = snv from rfl,
      hsnv, restoreEntries_foldInserts TN.entries LN hnodN hdN, exc_bind_ok,
      withEntries_withEntries]
    rfl
  have lkE4dep : lookupEntry E4 "dependencies" = some (.table HN) := by
    rw [hE4, lookup_insertEntry_other _ _ _ _ (Ne.symm pkgNeDep)]
    exact lk1
  have c0 : atPath g3 (.mk p s im q E4) ["dependencies"] [] =
      .ok ((), .mk p s im q (insertEntry E4 "dependencies" (.table (rtDepTable TN))).2) := by
    rw [atPath_cons_present g3 (.mk p s im q E4) "dependencies" [] []
      HN () (rtDepTable TN) lkE4dep (hHN ▸ c1)]
    rfl
  -- phase C: same for dev dependencies; the stash ends up empty
  set E5 : List (TKey × TItem) :=
    (insertEntry E4 "dependencies" (.table (rtDepTable TN))).2 with hE5
  set MR : TTable := (TM.withImplicit true).withEntries
    (insertEntry TM.entries "hackerman" (.table (rtHackT TH))).2 with hMR
  set PR : TTable := (TP.withImplicit true).withEntries
    (insertEntry TP.entries "metadata" (.table MR)).2 with hPR
  set g4 : TTable → Except String (Option TItem × TTable) := fun tb =>
    let (old, es) := removeEntry tb.entries "dev-dependencies"
    .ok (old, tb.withEntries es) with hg4
  have v4 : atPath g4 (stashB.withImplicit true) []
      ["package", "metadata", "hackerman", "stash"] =
      .ok (some (.table (.mk none none true (some 999) sdv)), freshImplicitTable) := rfl
  have v3 : atPath g4 (HH2.withImplicit true) ["stash"]
      ["package", "metadata", "hackerman"] =
      .ok (some (.table (.mk none none true (some 999) sdv)), rtHackT TH) := by
    rw [hHH2, implImplEntries]
    have h : lookupEntry ((TH.withImplicit true).withEntries
        (TH.entries ++ [(defaultKey "stash", .table stashB)])).entries "stash" =
        some (.table stashB) := by
      rw [entries_withEntries, lookup_append_of_none _ _ _ _ hS]; rfl
    rw [atPath_cons_present g4 _ "stash" [] _ stashB _ freshImplicitTable h v4]
    rw [entries_withEntries, insert_append_self _ _ _ _ _ hS rfl,
      withEntries_withEntries]
    rfl
  have v2 : atPath g4 (MB.withImplicit true) ["hackerman", "stash"]
      ["package", "metadata"] =
      .ok (some (.table (.mk none none true (some 999) sdv)), MR) := by
    rw [hMB, implImplEntries]
    have h : lookupEntry ((TM.withImplicit true).withEntries
        (insertEntry TM.entries "hackerman" (.table HH2)).2).entries "hackerman" =
        some (.table HH2) := by
      rw [entries_withEntries]; exact lookup_insertEntry_self _ _ _
    rw [atPath_cons_present g4 _ "hackerman" _ _ HH2 _ (rtHackT TH) h v3]
    rw [entries_withEntries, insert_insert_same, withEntries_withEntries, hMR]
  have v1 : atPath g4 (PB.withImplicit true) ["metadata", "hackerman", "stash"]
      ["package"] =
      .ok (some (.table (.mk none none true (some 999) sdv)), PR) := by
    rw [hPB, implImplEntries]
    have h : lookupEntry ((TP.withImplicit true).withEntries
        (insertEntry TP.entries "metadata" (.table MB)).2).entries "metadata" =
        some (.table MB) := by
      rw [entries_withEntries]; exact lookup_insertEntry_self _ _ _
    rw [atPath_cons_present g4 _ "metadata" _ _ MB _ MR h v2]
    rw [entries_withEntries, insert_insert_same, withEntries_withEntries, hPR]
  have lkE5pkg : lookupEntry E5 "package" = some (.table PB) := by
    rw [hE5, lookup_insertEntry_other _ _ _ _ pkgNeDep, hE4]
    exact lookup_insertEntry_self _ _ _
  have v0 : atPath g4 (.mk p s im q E5) stashPath [] =
      .ok (some (.table (.mk none none true (some 999) sdv)),
        .mk p s im q (insertEntry E5 "package" (.table PR)).2) := by
    rw [show stashPath = "package" :: ["metadata", "hackerman", "stash"] from rfl]
    rw [atPath_cons_present g4 (.mk p s im q E5) "package" _ _ PB _ PR lkE5pkg v1]
    rfl
  -- the live dev table
  set E6 : List (TKey × TItem) := (insertEntry E5 "package" (.table PR)).2 with hE6
  set g5 : TTable → Except String (Unit × TTable) := fun tb => do
    let es ← restoreEntries tb.entries
      (TTable.mk none none true (some 999) sdv).entries
    .ok ((), tb.withEntries (sortEntries es)) with hg5
  have w1 : atPath g5 ((hackedTable TD LD).withImplicit true) [] ["dev-dependencies"] =
      .ok ((), rtDepTable TD) := by
    rw [hackedTable_impl]
    show (do
      let es ← restoreEntries
        ((TD.withImplicit true).withEntries (foldInserts TD.entries LD)).entries
        (TTable.mk none none true (some 999) sdv).entries
      (Except.ok ((), ((TD.withImplicit true).withEntries
        (foldInserts TD.entries LD)).withEntries (sortEntries es)) :
        Except String (Unit × TTable))) = _
    rw [entries_withEntries,
      show (TTable.mk (none : Option String) none true (some 999) sdv).entries = sdv from rfl,
      hsdv, restoreEntries_foldInserts TD.entries LD hnodD hdD, exc_bind_ok,
      withEntries_withEntries]
    rfl
  have lkE6dev : lookupEntry E6 "dev-dependencies" = some (.table HD) := by
    rw [hE6, lookup_insertEntry_other _ _ _ _ (Ne.symm pkgNeDev), hE5,
      lookup_insertEntry_other _ _ _ _ depDevNe, hE4,
      lookup_insertEntry_other _ _ _ _ (Ne.symm pkgNeDev)]
    exact lk2
  have w0 : atPath g5 (.mk p s im q E6) ["dev-dependencies"] [] =
      .ok ((), .mk p s im q
        (insertEntry E6 "dev-dependencies" (.table (rtDepTable TD))).2) := by
    rw [atPath_cons_present g5 (.mk p s im q E6) "dev-dependencies" [] []
      HD () (rtDepTable TD) lkE6dev (hHD ▸ w1)]
    rfl
  set E7 : List (TKey × TItem) :=
    (insertEntry E6 "dev-dependencies" (.table (rtDepTable TD))).2 with hE7
  -- the final document is exactly the round-trip transform
  have hisSomeDep1 : (lookupEntry E1 "dependencies").isSome := by rw [lk1]; rfl
  have hisSomeDep0 : (lookupEntry (insertEntry E "dependencies" (.table HN)).2
      "dependencies").isSome := by rw [lookup_insertEntry_self]; rfl
  have hE5' : E5 = (insertEntry (insertEntry E1 "dependencies"
      (.table (rtDepTable TN))).2 "package" (.table PB)).2 := by
    rw [hE5, hE4, insert_insert_comm E1 "dependencies" "package"
      (.table (rtDepTable TN)) (.table PB) pkgNeDep hisSomeDep1]
  have hE1dep : (insertEntry E1 "dependencies" (.table (rtDepTable TN))).2 =
      (insertEntry (insertEntry E "dependencies" (.table (rtDepTable TN))).2
        "dev-dependencies" (.table HD)).2 := by
    rw [hE1, insert_insert_comm (insertEntry E "dependencies" (.table HN)).2
      "dependencies" "dev-dependencies" (.table (rtDepTable TN)) (.table HD)
      depDevNe hisSomeDep0, insert_insert_same]
  have hE6' : E6 = (insertEntry (insertEntry (insertEntry E "dependencies"
      (.table (rtDepTable TN))).2 "dev-dependencies" (.table HD)).2
      "package" (.table PR)).2 := by
    rw [hE6, hE5', insert_insert_same, hE1dep]
  have hisSomeDev : (lookupEntry (insertEntry (insertEntry E "dependencies"
      (.table (rtDepTable TN))).2 "dev-dependencies" (.table HD)).2
      "dev-dependencies").isSome := by
    rw [lookup_insertEntry_self]; rfl
  have hE7' : E7 = (insertEntry (insertEntry (insertEntry E "dependencies"
      (.table (rtDepTable TN))).2 "dev-dependencies" (.table (rtDepTable TD))).2
      "package" (.table PR)).2 := by
    rw [hE7, hE6', insert_insert_comm
      (insertEntry (insertEntry E "dependencies" (.table (rtDepTable TN))).2
        "dev-dependencies" (.table HD)).2
      "dev-dependencies" "package" (.table (rtDepTable TD)) (.table PR)
      pkgNeDev hisSomeDev, insert_insert_same]
  -- banner bookkeeping: the first item's decor is untouched
  have fs1 := firstState_insert_table E "dependencies" TN HN hN (hackedTable_pre TN LN)
  have fs2 := firstState_insert_table (insertEntry E "dependencies" (.table HN)).2
    "dev-dependencies" TD HD
    (by rw [lookup_insertEntry_other _ _ _ _ depDevNe]; exact hD) (hackedTable_pre TD LD)
  have fs3 := firstState_insert_table E1 "package" TP HC
    (by rw [hE1, lookup_insertEntry_other _ _ _ _ pkgNeDev,
      lookup_insertEntry_other _ _ _ _ pkgNeDep]; exact hP)
    (by rw [hHC]; exact hackChain_pre TP TM TH snv sdv)
  have fs4 := firstState_insert_table E1 "package" TP PB
    (by rw [hE1, lookup_insertEntry_other _ _ _ _ pkgNeDev,
      lookup_insertEntry_other _ _ _ _ pkgNeDep]; exact hP)
    (by rw [hPB, pre_withEntries, pre_withImplicit])
  have fs5 := firstState_insert_table E4 "dependencies" HN (rtDepTable TN) lkE4dep
    (by rw [rtDepTable_pre, hHN, hackedTable_pre])
  have fs6 := firstState_insert_table E5 "package" PB PR lkE5pkg
    (by rw [hPR, hPB, pre_withEntries, pre_withImplicit, pre_withEntries,
      pre_withImplicit])
  have fs7 := firstState_insert_table E6 "dev-dependencies" HD (rtDepTable TD) lkE6dev
    (by rw [rtDepTable_pre, hHD, hackedTable_pre])
  have hgood7 : goodFirst E7 = true := by
    rw [hE7, fs7.1, hE6, fs6.1, hE5, fs5.1, hE4, fs4.1, hE1, fs2.1, fs1.1]
    exact hgood
  have hpre7 : firstPreOf E7 = firstPreOf E := by
    rw [hE7, fs7.2, hE6, fs6.2, hE5, fs5.2, hE4, fs4.2, hE1, fs2.2, fs1.2]
  have hstrip : stripBanner (.mk p s im q E7) =
      .ok ((firstPreOf E7).isSome, .mk p s im q E7) := by
    have := stripBanner_noop (.mk p s im q E7)
      (by rw [show (TTable.mk p s im q E7).entries = E7 from rfl]; exact hgood7)
      (by rw [show (TTable.mk p s im q E7).entries = E7 from rfl, hpre7]; exact hban)
    rw [this]
    rw [show (TTable.mk p s im q E7).entries = E7 from rfl]
  -- assemble the restore pipeline
  unfold restoreToml
  rw [a0]
  simp only [exc_bind_ok]
  unfold restoreTy
  rw [b0]
  simp only [exc_bind_ok]
  rw [c0]
  simp only [exc_bind_ok, exc_pure]
  rw [v0]
  simp only [exc_bind_ok]
  rw [w0]
  simp only [exc_bind_ok, exc_pure]
  rw [hstrip]
  simp only [exc_bind_ok, exc_pure]
  rw [rtTransform_spec p s im q E TN TD TP TM TH hN hD hP hM hH]
  have hmap : ∀ (b : Bool) (t : TTable), Except.map (fun (r : Bool × TTable) => r.2)
      (Except.ok (b, t) : Except String (Bool × TTable)) =
      (Except.ok t : Except String TTable) := fun b t => rfl
  rw [hmap]
  rw [hE7', hPR, hMR]

theorem except_bind_ok_pair (x : Bool × TTable)
    (f : Bool × TTable → Except String (Bool × TTable)) :
    (Except.ok x : Except String (Bool × TTable)).bind f = f x := rfl

/-- C2: the claimed byte-for-byte round trip does not hold; what holds
is this exact structural identity: editing with `lock = false` and then
restoring turns the manifest into `rtTransform` of itself — the two
dependency tables sorted by key and marked implicit, the
`package.metadata.hackerman` chain marked implicit, and an emptied
stash table left behind.  Hypotheses: both dependency tables and the
full metadata chain are present as tables, there is no pre-existing
stash or lock, no top-level `target` key, every change compiles, the
compiled names are distinct per table, displaced values are strings or
inline tables, and the first item's decor does not already carry the
banner. -/
theorem claim_c2_round_trip_is_sorting_transform
    (p s : Option String) (im : Bool) (q : Option Nat)
    (E : List (TKey × TItem)) (TN TD TP TM TH : TTable) (changes : List ChangePackage)
    (hT : lookupEntry E "target" = none)
    (hN : lookupEntry E "dependencies" = some (.table TN))
    (hD : lookupEntry E "dev-dependencies" = some (.table TD))
    (hP : lookupEntry E "package" = some (.table TP))
    (hM : lookupEntry TP.entries "metadata" = some (.table TM))
    (hH : lookupEntry TM.entries "hackerman" = some (.table TH))
    (hS : lookupEntry TH.entries "stash" = none)
    (hL : lookupEntry TH.entries "lock" = none)
    (hcomp : ∀ c ∈ changes, (compileChangePackage c).isOk = true)
    (hnodN : ((changeItems changes true).map (fun e => e.1)).Nodup)
    (hnodD : ((changeItems changes false).map (fun e => e.1)).Nodup)
    (hdN : ∀ e ∈ changeItems changes true,
      displacedOk (lookupEntry TN.entries e.1) = true)
    (hdD : ∀ e ∈ changeItems changes false,
      displacedOk (lookupEntry TD.entries e.1) = true)
    (hgood : goodFirst E = true)
    (hban : strIsPrefixOf BANNER ((firstPreOf E).getD "") = false) :
    Except.map (fun r => r.2)
      ((setDependenciesToml (.mk p s im q E) false changes).bind
        (fun r => restoreToml r.2)) =
      .ok (rtTransform (.mk p s im q E)) := by
  rw [setDependenciesToml_spec changes p s im q E TN TD TP TM TH hT hN hD hP hM hH hS
    hcomp hnodN hnodD]
  rw [except_bind_ok_pair]
  exact restoreToml_after_hack p s im q E TN TD TP TM TH
    (changeItems changes true) (changeItems changes false)
    hN hD hP hM hH hS hL hnodN hnodD hdN hdD hgood hban

/-- C2 witness: the general theorem applied to the concrete two-key
manifest and one added dependency. -/
theorem claim_c2_round_trip_is_sorting_transform_witness :
    Except.map (fun r => r.2)
      ((setDependenciesToml (.mk none none false none rtMEntries) false [rtChange]).bind
        (fun r => restoreToml r.2)) =
      .ok (rtTransform (.mk none none false none rtMEntries)) :=
  claim_c2_round_trip_is_sorting_transform none none false none rtMEntries
    rtDepsTbl rtDevTbl rtPkgTbl rtMetaTbl rtHackTbl [rtChange]
    rfl rfl rfl rfl rfl rfl rfl rfl
    (fun c hc => by rw [List.mem_singleton] at hc; rw [hc]; rfl)
    (by decide) (by decide) (by decide) (by decide) rfl (by decide)

/-- C2 counterexample: on `rtM` (keys `b`, `a` in that order, an empty
dev table) the edit succeeds, the restore succeeds, and the restored
document differs from the original even after erasing all whitespace —
the dependency keys come back sorted and the empty `[dev-dependencies]`
header is dropped — so the round trip is not byte-for-byte modulo
whitespace.  The sentinel half of the claim does hold here: the new key
`z` is stashed as a boolean and is gone after restore. -/
theorem claim_c2_round_trip_not_byte_identical :
    (setDependenciesToml rtM false [rtChange]).isOk = true ∧
    (restoreToml rtHacked).isOk = true ∧
    stripWS (render rtRestored) ≠ stripWS (render rtM) ∧
    (lookupEntry (stashDepEntries rtHacked) "z").map isBoolItem = some true ∧
    (lookupTablePath rtRestored ["dependencies"]).map
      (fun t => (lookupEntry t.entries "z").isNone) = some true := by
  refine ⟨?_, ?_, ?_, ?_, ?_⟩ <;> decide

end Hackerman
